import Mathlib

/-!
Verification development for the eth-data-crawler repository.

The Go sources under `cmd/main.go` (crawl-loop controller, both operating
modes), `rdb/rdb.go` (Redis wrapper: checkpoint and record persistence) and
`config/config.go` are embedded shallowly below: machine `uint64` arithmetic
is `Nat` with explicit reduction modulo `2^64` at the operations the source
performs, fallible calls return `Except`/`Option`, the external collaborators
(the Ethereum RPC client and the Redis client) are oracles supplied as plain
functions, and the controller's observable actions are collected in an event
trace.
-/

/-! ## Machine arithmetic (Go `uint64` / `int`) -/

/-- The constant `2^64`, the modulus of Go's `uint64` arithmetic. -/
def w64 : Nat := 2 ^ 64

/-- Go `uint64` addition: wraps modulo `2^64`. -/
def add64 (a b : Nat) : Nat := (a + b) % w64

/-- Go `uint64` subtraction: wraps modulo `2^64` (operands assumed `< 2^64`). -/
def sub64 (a b : Nat) : Nat := (a + w64 - b % w64) % w64

/-- Go's `int(x)` conversion of a `uint64` on a 64-bit platform:
reinterpret the bit pattern as a signed 64-bit integer. -/
def int64ofUint64 (x : Nat) : Int :=
  if x < 2 ^ 63 then (x : Int) else (x : Int) - (2 ^ 64 : Int)

theorem add64_eq_of_lt (a b : Nat) (h : a + b < w64) : add64 a b = a + b := by
  simp [add64, Nat.mod_eq_of_lt h]

theorem sub64_eq_of_le (a b : Nat) (hb : b ≤ a) (ha : a < w64) :
    sub64 a b = a - b := by
  have hbw : b < w64 := lt_of_le_of_lt hb ha
  have h1 : b % w64 = b := Nat.mod_eq_of_lt hbw
  have h2 : a + w64 - b = (a - b) + w64 := by omega
  have h3 : a - b < w64 := by omega
  simp [sub64, h1, h2, Nat.add_mod_right, Nat.mod_eq_of_lt h3]

/-- The degenerate-window count: `uint64` evaluation of
`thisToBlock - thisFromBlock + 1` when `thisToBlock = c` and
`thisFromBlock = c + 1` yields `0`. -/
theorem sub64_wraparound_zero (c : Nat) (h : c + 1 < w64) :
    add64 (sub64 c (c + 1)) 1 = 0 := by
  have hc : c < w64 := by omega
  have h1 : (c + 1) % w64 = c + 1 := Nat.mod_eq_of_lt h
  have h2 : c + w64 - (c + 1) = w64 - 1 := by omega
  have h3 : w64 - 1 < w64 := by simp [w64]
  have h4 : sub64 c (c + 1) = w64 - 1 := by
    simp [sub64, h1, h2, Nat.mod_eq_of_lt h3]
  have h5 : w64 - 1 + 1 = w64 := by simp [w64]
  simp [add64, h4, h5, Nat.mod_self]

/-! ## Decimal formatting and parsing (Go `strconv.FormatUint` /
`strconv.ParseUint(s, 10, 64)`, the serialization used for the checkpoint) -/

/-- The ASCII digit character for `n < 10`. -/
def digitChar (n : Nat) : Char := Char.ofNat (48 + n)

/-- Decimal digits of `n`, most significant first (fuel-indexed; any
`fuel > n` is enough). -/
def toDecimalAux : Nat → Nat → List Char
  | 0, _ => []
  | fuel + 1, n =>
    if n < 10 then [digitChar n]
    else toDecimalAux fuel (n / 10) ++ [digitChar (n % 10)]

/-- Model of Go `strconv.FormatUint(n, 10)`. -/
def formatUint (n : Nat) : String := ⟨toDecimalAux (n + 1) n⟩

/-- Digit-by-digit decimal accumulator, `none` on any non-digit character. -/
def parseDigits : List Char → Nat → Option Nat
  | [], acc => some acc
  | c :: r, acc =>
    if c.isDigit then parseDigits r (10 * acc + (c.toNat - 48)) else none

/-- Model of Go `strconv.ParseUint(s, 10, 64)`: rejects the empty string,
any non-digit, and any value that does not fit in 64 bits. -/
def parseUint64 (s : String) : Option Nat :=
  if s.data.isEmpty then none
  else
    match parseDigits s.data 0 with
    | none => none
    | some n => if n < w64 then some n else none

theorem digitChar_isDigit {n : Nat} (h : n < 10) :
    (digitChar n).isDigit = true := by
  interval_cases n <;> decide

theorem digitChar_toNat {n : Nat} (h : n < 10) :
    (digitChar n).toNat = 48 + n := by
  interval_cases n <;> decide

theorem parseDigits_append (xs ys : List Char) (acc : Nat) :
    parseDigits (xs ++ ys) acc =
      (parseDigits xs acc).bind (fun a => parseDigits ys a) := by
  induction xs generalizing acc with
  | nil => simp [parseDigits]
  | cons c r ih =>
    by_cases h : c.isDigit
    · simp [parseDigits, h, ih]
    · simp [parseDigits, h]

theorem toDecimalAux_ne_nil (fuel n : Nat) (h : n < fuel) :
    toDecimalAux fuel n ≠ [] := by
  cases fuel with
  | zero => omega
  | succ f =>
    by_cases h10 : n < 10 <;> simp [toDecimalAux, h10]

theorem parseDigits_toDecimalAux (fuel : Nat) :
    ∀ n acc, n < fuel →
      parseDigits (toDecimalAux fuel n) acc =
        some (acc * 10 ^ (toDecimalAux fuel n).length + n) := by
  induction fuel with
  | zero => intro n acc h; omega
  | succ f ih =>
    intro n acc h
    by_cases h10 : n < 10
    · simp [toDecimalAux, h10, parseDigits, digitChar_isDigit h10,
        digitChar_toNat h10]
      omega
    · have hrec : n / 10 < f := by omega
      have hmod : n % 10 < 10 := Nat.mod_lt _ (by omega)
      simp only [toDecimalAux, h10, if_false, parseDigits_append,
        ih (n / 10) acc hrec, Option.some_bind, parseDigits,
        digitChar_isDigit hmod, if_true, digitChar_toNat hmod,
        List.length_append, List.length_singleton]
      have hdrop : 48 + n % 10 - 48 = n % 10 := by omega
      rw [hdrop]
      congr 1
      have : 10 * (acc * 10 ^ (toDecimalAux f (n / 10)).length + n / 10)
          + n % 10
          = acc * 10 ^ ((toDecimalAux f (n / 10)).length + 1)
            + (10 * (n / 10) + n % 10) := by ring
      rw [this]
      omega

/-- Round trip: a checkpoint value below `2^64` stored with `FormatUint`
parses back to itself with `ParseUint`. -/
theorem parseUint64_formatUint (n : Nat) (h : n < w64) :
    parseUint64 (formatUint n) = some n := by
  have hne := toDecimalAux_ne_nil (n + 1) n (by omega)
  have hp := parseDigits_toDecimalAux (n + 1) n 0 (by omega)
  simp only [parseUint64, formatUint, List.isEmpty_iff, hne, if_false, hp,
    Nat.zero_mul, Nat.zero_add, h, if_true]

/-! ## Hex encoding (Go `encoding/hex.EncodeToString`) -/

/-- Lowercase hex digit for a nibble. -/
def hexDigit (n : Nat) : Char :=
  if n < 10 then Char.ofNat (48 + n) else Char.ofNat (87 + n)

/-- Two lowercase hex characters per byte, as `hex.EncodeToString` emits. -/
def hexEncodeChars : List Nat → List Char
  | [] => []
  | b :: bs => hexDigit (b % 256 / 16) :: hexDigit (b % 16) :: hexEncodeChars bs

/-- Model of Go `hex.EncodeToString` on a byte slice. -/
def hexEncodeToString (bs : List Nat) : String := ⟨hexEncodeChars bs⟩

/-- Model of Go `strings.ToLower`: per-rune lowercase mapping. -/
def toLowerStr (s : String) : String := ⟨s.data.map Char.toLower⟩

/-! ## Redis wrapper model (`rdb/rdb.go`) -/

/-- The `keyPrefix` constant of `rdb/rdb.go`. -/
def keyPrefix : String := "ethtxcrawler"

/-- Label normalization performed by `rdb.New`: an empty label becomes the
bare prefix, a non-empty label becomes `keyPrefix@label`. -/
def effLabel (label : String) : String :=
  if label = "" then keyPrefix else keyPrefix ++ "@" ++ label

/-- Model of `(*redisWrapper).txDataKey`: a constant, the receiver's serviceLabel is
not consulted. -/
def txDataKey (_label : String) : String := keyPrefix ++ ":txs"

/-- Model of `(*redisWrapper).logDataKey`. -/
def logDataKey (label addr : String) : String :=
  effLabel label ++ ":logs:" ++ addr

/-- Model of `(*redisWrapper).lastRecordedBlockKey`. -/
def lastRecordedBlockKey (label mode : String) : String :=
  effLabel label ++ ":" ++ mode ++ ":lastRecordedBlock"

/-- The possible replies of the Redis `GET` call used by
`GetLastRecordedBlock`: key missing (`redis.Nil`), transport error, or a
stored string. -/
inductive RedisReply where
  | nil
  | err (msg : String)
  | val (s : String)
  deriving DecidableEq, Repr

/-- Model of `(*redisWrapper).GetLastRecordedBlock`: `redis.Nil` (key absent) is
collapsed to the value `0`; a stored string is parsed as a base-10 `uint64`. -/
def GetLastRecordedBlock : RedisReply → Except String Nat
  | .nil => .ok 0
  | .err m => .error ("failed to get lastRecordedBlock: " ++ m)
  | .val s =>
    match parseUint64 s with
    | some n => .ok n
    | none => .error "failed to parse redis string to block number"

/-- The durable effect of `(*redisWrapper).SetLastRecordedBlock`: the key
holds `strconv.FormatUint(block, 10)`. -/
def SetLastRecordedBlockStored (block : Nat) : RedisReply :=
  .val (formatUint block)

/-! ## Entity types (`entity` package) and extraction -/

/-- Model of `entity.EthData`: one persisted record. -/
structure EthData where
  hash : String
  data : String
  deriving DecidableEq, Repr

/-- A fetched transaction: `tx.Hash().Hex()` output and `tx.Data()` bytes. -/
structure TxData where
  hashHex : String
  txData : List Nat
  deriving DecidableEq, Repr

/-- A fetched block: its `NumberU64()` and ordered transaction list. -/
structure BlockData where
  number : Nat
  txs : List TxData
  deriving DecidableEq, Repr

/-- One log event returned by `FilterLogs`: `log.Address.Hex()`,
`log.TxHash.Hex()`, `log.BlockNumber`, `log.Data`. -/
structure LogEv where
  addressHex : String
  txHashHex : String
  blockNumber : Nat
  data : List Nat
  deriving DecidableEq, Repr

/-- Model of `entity.EthDatasByBlockNumber`, as an association list keyed by block
number. -/
abbrev DatasByBlock := List (Nat × List EthData)

/-- Log-mode nested map `map[string]entity.EthDatasByBlockNumber`. -/
abbrev DatasByAddr := List (String × DatasByBlock)

/-- Transaction extraction of one block (`cmd/main.go` lines 182-194):
per transaction, lowercase hash hex and hex-encoded input data. -/
def extractBlockTxs (b : BlockData) : Nat × List EthData :=
  (b.number, b.txs.map fun tx =>
    { hash := (toLowerStr tx.hashHex), data := hexEncodeToString tx.txData })

/-- The record derived from one log event (`cmd/main.go` lines 282-301). -/
def logRecordOf (l : LogEv) : EthData :=
  { hash := (toLowerStr l.txHashHex)
    data := toLowerStr (hexEncodeToString l.data) }

/-- Append a record to the per-block bucket of a `DatasByBlock`. -/
def insBlock : DatasByBlock → Nat → EthData → DatasByBlock
  | [], bn, d => [(bn, [d])]
  | (k, ds) :: rest, bn, d =>
    if k = bn then (k, ds ++ [d]) :: rest else (k, ds) :: insBlock rest bn d

/-- Append a record to the `(address, block)` bucket of a `DatasByAddr`. -/
def insAddr : DatasByAddr → String → Nat → EthData → DatasByAddr
  | [], a, bn, d => [(a, [(bn, [d])])]
  | (k, bm) :: rest, a, bn, d =>
    if k = a then (k, insBlock bm bn d) :: rest
    else (k, bm) :: insAddr rest a bn d

/-- Log extraction over a window's events (`cmd/main.go` lines 278-304):
each event is appended, in arrival order, to the bucket keyed by its
lowercase contract address and its block number. -/
def extractLogs (logs : List LogEv) : DatasByAddr :=
  logs.foldl
    (fun m l => insAddr m (toLowerStr l.addressHex) l.blockNumber (logRecordOf l))
    []

/-- Bucket lookup in a `DatasByBlock`. -/
def lookupBlock : DatasByBlock → Nat → List EthData
  | [], _ => []
  | (k, ds) :: rest, bn => if k = bn then ds else lookupBlock rest bn

/-- Nested lookup in a `DatasByAddr`. -/
def lookupAddr : DatasByAddr → String → DatasByBlock
  | [], _ => []
  | (k, bm) :: rest, a => if k = a then bm else lookupAddr rest a

/-- The record sequence stored for `(address, block)`. -/
def bucket (m : DatasByAddr) (a : String) (bn : Nat) : List EthData :=
  lookupBlock (lookupAddr m a) bn

/-! ## Crawl-loop controller (`cmd/main.go`) -/

/-- Controller-owned state: the in-memory `lastRecordedBlock` and the
`firstRun` flag (set once before the loop, never cleared inside it). -/
structure LoopSt where
  lrb : Nat
  firstRun : Bool
  deriving DecidableEq, Repr

/-- Observable actions of one run, in program order.  Store-call results are
`Option String` (`none` = nil error, `some msg` = failure), mirroring Go. -/
inductive Ev where
  | window (fromB toB : Nat)
  | fetchBlock (n : Nat)
  | filterLogs (fromB toB : Nat)
  | saveTxs (data : DatasByBlock) (res : Option String)
  | saveLogTxs (data : DatasByAddr) (res : Option String)
  | setLast (n : Nat) (res : Option String)
  deriving DecidableEq, Repr

/-- Outcome of a single loop iteration. -/
inductive Outcome where
  | next (st : LoopSt)
  | fail (msg : String)
  | hang
  | panicked
  deriving DecidableEq, Repr

/-- Outcome of the whole loop. -/
inductive LoopRes where
  | finished (st : LoopSt)
  | failed (msg : String)
  | hung
  | panicked
  | fuelOut (st : LoopSt)
  deriving DecidableEq, Repr

/-- The external collaborators: the Ethereum client (`BlockNumber`,
`BlockByNumber`, `FilterLogs`) and the Redis wrapper's store calls.
`height`, `saveTxsRes`, `saveLogRes` and `setLastRes` are indexed by the
loop-iteration counter; `blockByNumber` by block number. -/
structure Env where
  height : Nat → Except String Nat
  blockByNumber : Nat → Except String BlockData
  filterLogs : Nat → Nat → Except String (List LogEv)
  saveTxsRes : Nat → Option String
  saveLogRes : Nat → Option String
  setLastRes : Nat → Option String

/-- The window upper bound of one iteration (`cmd/main.go` lines 133-147):
`thisFromBlock + batchSize` in `uint64`, clipped first to the current chain
height, then (when not rolling) to the configured `toBlock`. -/
def computeToBlock (thisFrom batch cur toB : Nat) (rolling : Bool) : Nat :=
  let t0 := add64 thisFrom batch
  let t1 := if cur < t0 then cur else t0
  if !rolling && toB < t1 then toB else t1

/-- The block numbers the per-block fan-out iterates over
(`for blockNumber := thisFromBlock; blockNumber <= thisToBlock; ...`). -/
def blockRange (a b : Nat) : List Nat :=
  if a ≤ b then List.range' a (b + 1 - a) else []

/-- Sequential collection of the per-block fetches: the first error (if
any), else all blocks. -/
def collectBlocks (env : Env) : List Nat → Except String (List BlockData)
  | [] => .ok []
  | n :: r =>
    match env.blockByNumber n with
    | .error e => .error e
    | .ok b =>
      match collectBlocks env r with
      | .error e => .error e
      | .ok bs => .ok (b :: bs)

/-- One iteration of the transaction-mode loop body (`getAndSaveTxs`,
`cmd/main.go` lines 125-209).  A failed per-block fetch yields `.hang`: the
failing goroutine blocks sending on the unbuffered `errChan` before its
`wg.Done()`, so `wg.Wait()` never returns (proved below on `FanStep`).  A
negative `numberOfBlocks` yields `.panicked` (`wg.Add` of a negative count). -/
def iterTx (env : Env) (idx toB batch : Nat) (rolling : Bool) (st : LoopSt) :
    List Ev × Outcome :=
  let thisFrom := if st.firstRun then st.lrb else add64 st.lrb 1
  match env.height idx with
  | .error e => ([], .fail ("failed to get current block number: " ++ e))
  | .ok cur =>
    let t2 := computeToBlock thisFrom batch cur toB rolling
    let win := Ev.window thisFrom t2
    let nb : Int := int64ofUint64 (add64 (sub64 t2 thisFrom) 1)
    if nb < 0 then ([win], .panicked)
    else
      let fetchEvs := (blockRange thisFrom t2).map Ev.fetchBlock
      match collectBlocks env (blockRange thisFrom t2) with
      | .error _ => (win :: fetchEvs, .hang)
      | .ok blocks =>
        let dataByBlock := blocks.map extractBlockTxs
        match env.saveTxsRes idx with
        | some e =>
          (win :: fetchEvs ++ [Ev.saveTxs dataByBlock (some e)],
            .fail ("failed to save tx data to redis: " ++ e))
        | none =>
          match env.setLastRes idx with
          | some e =>
            (win :: fetchEvs ++
              [Ev.saveTxs dataByBlock none, Ev.setLast t2 (some e)],
              .fail ("failed to save lastRecordedBlock: " ++ e))
          | none =>
            (win :: fetchEvs ++
              [Ev.saveTxs dataByBlock none, Ev.setLast t2 none],
              .next ⟨t2, st.firstRun⟩)

/-- One iteration of the log-mode loop body (`getAndSaveLogsTxs`,
`cmd/main.go` lines 240-316).  A single `FilterLogs` range query replaces
the per-block fan-out; `numberOfBlocks` is only logged, so there is no
panic branch. -/
def iterLog (env : Env) (idx toB batch : Nat) (rolling : Bool) (st : LoopSt) :
    List Ev × Outcome :=
  let thisFrom := if st.firstRun then st.lrb else add64 st.lrb 1
  match env.height idx with
  | .error e => ([], .fail ("failed to get current block number: " ++ e))
  | .ok cur =>
    let t2 := computeToBlock thisFrom batch cur toB rolling
    let win := Ev.window thisFrom t2
    let flEv := Ev.filterLogs thisFrom t2
    match env.filterLogs thisFrom t2 with
    | .error e => ([win, flEv], .fail ("failed to filter logs: " ++ e))
    | .ok logs =>
      let dataByAddr := extractLogs logs
      match env.saveLogRes idx with
      | some e =>
        ([win, flEv, Ev.saveLogTxs dataByAddr (some e)],
          .fail ("failed to save data: " ++ e))
      | none =>
        match env.setLastRes idx with
        | some e =>
          ([win, flEv, Ev.saveLogTxs dataByAddr none,
            Ev.setLast t2 (some e)],
            .fail ("failed to save lastRecordedBlock: " ++ e))
        | none =>
          ([win, flEv, Ev.saveLogTxs dataByAddr none, Ev.setLast t2 none],
            .next ⟨t2, st.firstRun⟩)

/-- The crawl loop, iteration body abstracted (`for rolling ||
lastRecordedBlock < toBlock`).  `fuel` only bounds the number of executed
iterations; exhaustion is reported as `.fuelOut`, distinct from the loop
condition turning false (`.finished`). -/
def crawlLoop (iter : Env → Nat → Nat → Nat → Bool → LoopSt →
    List Ev × Outcome) (env : Env) (toB batch : Nat) (rolling : Bool) :
    Nat → Nat → LoopSt → List Ev × LoopRes
  | 0, _, st =>
    if rolling = true ∨ st.lrb < toB then ([], .fuelOut st)
    else ([], .finished st)
  | fuel + 1, idx, st =>
    if rolling = true ∨ st.lrb < toB then
      match iter env idx toB batch rolling st with
      | (evs, .next st') =>
        let (evs2, r) := crawlLoop iter env toB batch rolling fuel (idx + 1) st'
        (evs ++ evs2, r)
      | (evs, .fail e) => (evs, .failed e)
      | (evs, .hang) => (evs, .hung)
      | (evs, .panicked) => (evs, .panicked)
    else ([], .finished st)

/-- Resume-position computation shared by both modes (`cmd/main.go` lines
116-121 / 231-236): a retrieved value of `0` means first run and the
position becomes the configured `fromBlock`. -/
def resumeSt (got fromB : Nat) : LoopSt :=
  if got = 0 then ⟨fromB, true⟩ else ⟨got, false⟩

/-- Model of `getAndSaveTxs`: read the checkpoint, compute the resume state, run the
transaction-mode loop. -/
def getAndSaveTxs (env : Env) (stored : RedisReply)
    (fromB toB batch : Nat) (rolling : Bool) (fuel : Nat) :
    List Ev × LoopRes :=
  match GetLastRecordedBlock stored with
  | .error e => ([], .failed ("redis error: " ++ e))
  | .ok got => crawlLoop iterTx env toB batch rolling fuel 0 (resumeSt got fromB)

/-- Model of `getAndSaveLogsTxs`: the log-mode entry point. -/
def getAndSaveLogsTxs (env : Env) (stored : RedisReply)
    (fromB toB batch : Nat) (rolling : Bool) (fuel : Nat) :
    List Ev × LoopRes :=
  match GetLastRecordedBlock stored with
  | .error e => ([], .failed ("redis error: " ++ e))
  | .ok got => crawlLoop iterLog env toB batch rolling fuel 0 (resumeSt got fromB)

/-- The windows announced in a trace, in order. -/
def windowsOf (evs : List Ev) : List (Nat × Nat) :=
  evs.filterMap fun e =>
    match e with
    | .window a b => some (a, b)
    | _ => none

/-! ## The transaction-mode fan-out (`cmd/main.go` lines 152-179)

One model task per spawned goroutine.  `tasks[i] = true` means task `i`'s
`BlockByNumber` call fails, so the task must first complete a send on the
unbuffered `errChan` — a rendezvous that needs the main goroutine to be
receiving, which it does only in the `select` loop after `wg.Wait()`
returns.  `blockChan` is buffered to the task count, so its sends never
block and are left implicit.  `errReturned` records whether the collector
ever received an error (the `return errors.Wrap(err, ...)` path). -/

/-- Shared state of the fan-out: per-task completion (`wg.Done()` executed),
whether main has passed `wg.Wait()` into the `select` loop, and whether an
error was ever received there. -/
structure FanSt where
  done : List Bool
  mainInSelect : Bool
  errReturned : Bool
  deriving DecidableEq, Repr

/-- Initial fan-out state right after the `go func` statements. -/
def fanInit (tasks : List Bool) : FanSt :=
  { done := List.replicate tasks.length false
    mainInSelect := false
    errReturned := false }

/-- Interleaving semantics of the fan-out.  A failing task can reach its
`wg.Done()` only by first completing the unbuffered `errChan` send, which
requires main to be receiving in the `select` loop; main leaves `wg.Wait()`
only once every task is done. -/
inductive FanStep (tasks : List Bool) : FanSt → FanSt → Prop where
  | taskOk (i : Nat) (s : FanSt) :
      tasks[i]? = some false → s.done[i]? = some false →
      FanStep tasks s { s with done := s.done.set i true }
  | taskErr (i : Nat) (s : FanSt) :
      tasks[i]? = some true → s.done[i]? = some false →
      s.mainInSelect = true →
      FanStep tasks s
        { s with done := s.done.set i true, errReturned := true }
  | mainJoin (s : FanSt) :
      s.mainInSelect = false → (∀ b ∈ s.done, b = true) →
      FanStep tasks s { s with mainInSelect := true }

/-- States reachable from the spawn point under any interleaving. -/
def FanReach (tasks : List Bool) : FanSt → Prop :=
  Relation.ReflTransGen (FanStep tasks) (fanInit tasks)

/-- The deadlock invariant: while some task still has to error, main has
not passed `wg.Wait()`, no error has been received, and every erring task
is still blocked before its `wg.Done()`. -/
def fanInv (tasks : List Bool) (s : FanSt) : Prop :=
  s.mainInSelect = false ∧ s.errReturned = false ∧
    ∀ i : Nat, tasks[i]? = some true → s.done[i]? = some false

theorem fanInv_init (tasks : List Bool) : fanInv tasks (fanInit tasks) := by
  refine ⟨rfl, rfl, fun i hi => ?_⟩
  have hlt : i < tasks.length := (List.getElem?_eq_some.mp hi).1
  simp [fanInit, List.getElem?_eq_getElem, hlt]

theorem fanInv_step {tasks : List Bool} {s s' : FanSt}
    (htrue : true ∈ tasks) (hstep : FanStep tasks s s')
    (hinv : fanInv tasks s) : fanInv tasks s' := by
  obtain ⟨hm, he, hd⟩ := hinv
  cases hstep with
  | taskOk i _ hti hdi =>
    refine ⟨hm, he, fun j htj => ?_⟩
    by_cases hij : i = j
    · subst hij; rw [hti] at htj; cases htj
    · rw [List.getElem?_set_ne hij]; exact hd j htj
  | taskErr i _ hti hdi hmain =>
    rw [hm] at hmain; cases hmain
  | mainJoin _ hmain hall =>
    exfalso
    obtain ⟨i, hlt, hi⟩ := List.mem_iff_getElem.mp htrue
    have hti : tasks[i]? = some true := by
      rw [List.getElem?_eq_getElem hlt, hi]
    have hdi := hd i hti
    obtain ⟨hdlt, hde⟩ := List.getElem?_eq_some.mp hdi
    have hfm : false ∈ s.done := hde ▸ List.getElem_mem hdlt
    cases hall false hfm

/-- If any task in the fan-out errs, then in every reachable state main is
still blocked in `wg.Wait()` and no error has been received: the first
error is never returned to the caller, and nothing after the join runs. -/
theorem fan_deadlock {tasks : List Bool} (htrue : true ∈ tasks) :
    ∀ s, FanReach tasks s → s.mainInSelect = false ∧ s.errReturned = false := by
  intro s hr
  suffices h : fanInv tasks s from ⟨h.1, h.2.1⟩
  induction hr with
  | refl => exact fanInv_init tasks
  | tail _ hstep ih => exact fanInv_step htrue hstep ih

/-! ## Trace helpers -/

/-- Is this event a per-block fetch (one spawned goroutine)? -/
def isFetchEv : Ev → Bool
  | .fetchBlock _ => true
  | _ => false

/-- Is this event a range-filtered log query? -/
def isFilterEv : Ev → Bool
  | .filterLogs _ _ => true
  | _ => false

/-- The window lower bound an iteration computes from the controller state
(`cmd/main.go` lines 126-131). -/
def thisFromOf (st : LoopSt) : Nat :=
  if st.firstRun then st.lrb else add64 st.lrb 1

/-- Windows chained so that each lower bound equals the given block
(respectively the previous window's upper bound). -/
def chainFrom : Nat → List (Nat × Nat) → Prop
  | _, [] => True
  | lb, (a, b) :: rest => a = lb ∧ chainFrom b rest

/-- Scans a trace: `true` iff every checkpoint write is preceded by a record
write that returned without error.  `saw` carries whether a successful
record write has occurred yet. -/
def setAfterSave : List Ev → Bool → Bool
  | [], _ => true
  | e :: r, saw =>
    match e with
    | .setLast _ _ => saw && setAfterSave r saw
    | .saveTxs _ none => setAfterSave r true
    | .saveLogTxs _ none => setAfterSave r true
    | _ => setAfterSave r saw

theorem windowsOf_append (xs ys : List Ev) :
    windowsOf (xs ++ ys) = windowsOf xs ++ windowsOf ys :=
  List.filterMap_append ..

theorem windowsOf_map_fetch (ns : List Nat) :
    windowsOf (ns.map Ev.fetchBlock) = [] := by
  induction ns with
  | nil => rfl
  | cons n r _ => simp [windowsOf, List.filterMap_cons]

theorem mem_blockRange {n a b : Nat} (h : n ∈ blockRange a b) :
    a ≤ n ∧ n ≤ b := by
  unfold blockRange at h
  by_cases hab : a ≤ b
  · simp only [hab, if_true] at h
    have := List.mem_range'_1.mp h
    omega
  · simp [hab] at h

theorem blockRange_mem {n a b : Nat} (h1 : a ≤ n) (h2 : n ≤ b) :
    n ∈ blockRange a b := by
  unfold blockRange
  have hab : a ≤ b := le_trans h1 h2
  simp only [hab, if_true]
  exact List.mem_range'_1.mpr ⟨h1, by omega⟩

theorem collectBlocks_ok (env : Env) (ns : List Nat)
    (h : ∀ n ∈ ns, ∃ b, env.blockByNumber n = .ok b) :
    ∃ bs, collectBlocks env ns = .ok bs := by
  induction ns with
  | nil => exact ⟨[], rfl⟩
  | cons n r ih =>
    obtain ⟨b, hb⟩ := h n (List.mem_cons_self n r)
    obtain ⟨bs, hbs⟩ := ih fun m hm => h m (List.mem_cons_of_mem n hm)
    exact ⟨b :: bs, by simp [collectBlocks, hb, hbs]⟩

/-- Unfolding of `iterTx` once the height query has answered. -/
theorem iterTx_eq (env : Env) (idx toB batch : Nat) (rolling : Bool)
    (st : LoopSt) (cur : Nat) (hh : env.height idx = .ok cur) :
    iterTx env idx toB batch rolling st =
      (if int64ofUint64 (add64 (sub64
            (computeToBlock (thisFromOf st) batch cur toB rolling)
            (thisFromOf st)) 1) < 0 then
        ([Ev.window (thisFromOf st)
            (computeToBlock (thisFromOf st) batch cur toB rolling)],
          Outcome.panicked)
      else
        match collectBlocks env (blockRange (thisFromOf st)
            (computeToBlock (thisFromOf st) batch cur toB rolling)) with
        | .error _ =>
          (Ev.window (thisFromOf st)
              (computeToBlock (thisFromOf st) batch cur toB rolling) ::
            (blockRange (thisFromOf st)
              (computeToBlock (thisFromOf st) batch cur toB rolling)).map
                Ev.fetchBlock,
            Outcome.hang)
        | .ok blocks =>
          match env.saveTxsRes idx with
          | some e =>
            (Ev.window (thisFromOf st)
                (computeToBlock (thisFromOf st) batch cur toB rolling) ::
              (blockRange (thisFromOf st)
                (computeToBlock (thisFromOf st) batch cur toB rolling)).map
                  Ev.fetchBlock ++
              [Ev.saveTxs (blocks.map extractBlockTxs) (some e)],
              Outcome.fail ("failed to save tx data to redis: " ++ e))
          | none =>
            match env.setLastRes idx with
            | some e =>
              (Ev.window (thisFromOf st)
                  (computeToBlock (thisFromOf st) batch cur toB rolling) ::
                (blockRange (thisFromOf st)
                  (computeToBlock (thisFromOf st) batch cur toB rolling)).map
                    Ev.fetchBlock ++
                [Ev.saveTxs (blocks.map extractBlockTxs) none,
                  Ev.setLast (computeToBlock (thisFromOf st) batch cur toB
                    rolling) (some e)],
                Outcome.fail ("failed to save lastRecordedBlock: " ++ e))
            | none =>
              (Ev.window (thisFromOf st)
                  (computeToBlock (thisFromOf st) batch cur toB rolling) ::
                (blockRange (thisFromOf st)
                  (computeToBlock (thisFromOf st) batch cur toB rolling)).map
                    Ev.fetchBlock ++
                [Ev.saveTxs (blocks.map extractBlockTxs) none,
                  Ev.setLast (computeToBlock (thisFromOf st) batch cur toB
                    rolling) none],
                Outcome.next ⟨computeToBlock (thisFromOf st) batch cur toB
                  rolling, st.firstRun⟩)) := by
  unfold iterTx
  rw [hh]
  rfl

/-- Structure of one transaction-mode iteration: either the height query
failed (empty trace, error), or the trace is the announced window followed
by window-free events; fetch events stay inside the window, are all present
when the window is well formed and small enough for `wg.Add`, and a `.next`
outcome carries exactly the clipped upper bound with the `firstRun` flag
untouched. -/
theorem iterTx_shape (env : Env) (idx toB batch : Nat) (rolling : Bool)
    (st : LoopSt) :
    (∃ e, iterTx env idx toB batch rolling st = ([], .fail e)) ∨
    (∃ cur evs out, env.height idx = .ok cur ∧
      iterTx env idx toB batch rolling st =
        (Ev.window (thisFromOf st)
          (computeToBlock (thisFromOf st) batch cur toB rolling) :: evs, out) ∧
      windowsOf evs = [] ∧
      (∀ n, Ev.fetchBlock n ∈ evs → thisFromOf st ≤ n ∧
        n ≤ computeToBlock (thisFromOf st) batch cur toB rolling) ∧
      (∀ n, thisFromOf st ≤ n →
        n ≤ computeToBlock (thisFromOf st) batch cur toB rolling →
        computeToBlock (thisFromOf st) batch cur toB rolling < w64 →
        computeToBlock (thisFromOf st) batch cur toB rolling + 1
          - thisFromOf st < 2 ^ 63 →
        Ev.fetchBlock n ∈ evs) ∧
      (∀ st', out = Outcome.next st' →
        st' = ⟨computeToBlock (thisFromOf st) batch cur toB rolling,
          st.firstRun⟩)) := by
  rcases hh : env.height idx with e | cur
  · exact Or.inl ⟨_, by unfold iterTx; rw [hh]⟩
  right
  refine ⟨cur, ?_⟩
  rw [iterTx_eq env idx toB batch rolling st cur hh]
  generalize thisFromOf st = A
  generalize hT : computeToBlock A batch cur toB rolling = T
  have hnopanic : ∀ n : Nat, A ≤ n → n ≤ T → T < w64 → T + 1 - A < 2 ^ 63 →
      ¬ int64ofUint64 (add64 (sub64 T A) 1) < 0 := by
    intro n h1 h2 h3 h4
    have hsub : sub64 T A = T - A := sub64_eq_of_le _ _ (le_trans h1 h2) h3
    have hlt : T - A + 1 < w64 := by
      have : (2 : Nat) ^ 63 < w64 := by norm_num [w64]
      omega
    have hadd : add64 (T - A) 1 = T - A + 1 := add64_eq_of_lt _ _ hlt
    rw [hsub, hadd]
    have hsm : T - A + 1 < 2 ^ 63 := by omega
    simp only [int64ofUint64, hsm, if_true]
    omega
  have hbr : ∀ n, Ev.fetchBlock n ∈ (blockRange A T).map Ev.fetchBlock →
      A ≤ n ∧ n ≤ T := by
    intro n hn
    obtain ⟨m, hm, he⟩ := List.mem_map.mp hn
    cases he
    exact mem_blockRange hm
  have hbr2 : ∀ n, A ≤ n → n ≤ T →
      Ev.fetchBlock n ∈ (blockRange A T).map Ev.fetchBlock := by
    intro n h1 h2
    exact List.mem_map.mpr ⟨n, blockRange_mem h1 h2, rfl⟩
  by_cases hnb : int64ofUint64 (add64 (sub64 T A) 1) < 0
  · rw [if_pos hnb]
    refine ⟨[], .panicked, rfl, rfl, rfl, by simp, ?_, by simp⟩
    intro n h1 h2 h3 h4
    exact absurd hnb (hnopanic n h1 h2 h3 h4)
  rw [if_neg hnb]
  rcases hcb : collectBlocks env (blockRange A T) with e | bs
  · refine ⟨(blockRange A T).map Ev.fetchBlock, .hang, rfl, rfl,
      windowsOf_map_fetch _, hbr, ?_, by simp⟩
    intro n h1 h2 _ _
    exact hbr2 n h1 h2
  rcases hs : env.saveTxsRes idx with _ | e
  · rcases hset : env.setLastRes idx with _ | e
    · refine ⟨(blockRange A T).map Ev.fetchBlock ++
        [Ev.saveTxs (bs.map extractBlockTxs) none, Ev.setLast T none],
        .next ⟨T, st.firstRun⟩, rfl, rfl, ?_, ?_, ?_, ?_⟩
      · rw [windowsOf_append, windowsOf_map_fetch]
        rfl
      · intro n hn
        rcases List.mem_append.mp hn with h | h
        · exact hbr n h
        · simp at h
      · intro n h1 h2 _ _
        exact List.mem_append.mpr (Or.inl (hbr2 n h1 h2))
      · intro st' hst'
        cases hst'
        rfl
    · refine ⟨(blockRange A T).map Ev.fetchBlock ++
        [Ev.saveTxs (bs.map extractBlockTxs) none, Ev.setLast T (some e)],
        .fail ("failed to save lastRecordedBlock: " ++ e), rfl, rfl, ?_, ?_,
        ?_, by simp⟩
      · rw [windowsOf_append, windowsOf_map_fetch]
        rfl
      · intro n hn
        rcases List.mem_append.mp hn with h | h
        · exact hbr n h
        · simp at h
      · intro n h1 h2 _ _
        exact List.mem_append.mpr (Or.inl (hbr2 n h1 h2))
  · refine ⟨(blockRange A T).map Ev.fetchBlock ++
      [Ev.saveTxs (bs.map extractBlockTxs) (some e)],
      .fail ("failed to save tx data to redis: " ++ e), rfl, rfl, ?_, ?_, ?_,
      by simp⟩
    · rw [windowsOf_append, windowsOf_map_fetch]
      rfl
    · intro n hn
      rcases List.mem_append.mp hn with h | h
      · exact hbr n h
      · simp at h
    · intro n h1 h2 _ _
      exact List.mem_append.mpr (Or.inl (hbr2 n h1 h2))

/-- Unfolding of `iterLog` once the height query has answered. -/
theorem iterLog_eq (env : Env) (idx toB batch : Nat) (rolling : Bool)
    (st : LoopSt) (cur : Nat) (hh : env.height idx = .ok cur) :
    iterLog env idx toB batch rolling st =
      (match env.filterLogs (thisFromOf st)
          (computeToBlock (thisFromOf st) batch cur toB rolling) with
      | .error e =>
        ([Ev.window (thisFromOf st)
            (computeToBlock (thisFromOf st) batch cur toB rolling),
          Ev.filterLogs (thisFromOf st)
            (computeToBlock (thisFromOf st) batch cur toB rolling)],
          Outcome.fail ("failed to filter logs: " ++ e))
      | .ok logs =>
        match env.saveLogRes idx with
        | some e =>
          ([Ev.window (thisFromOf st)
              (computeToBlock (thisFromOf st) batch cur toB rolling),
            Ev.filterLogs (thisFromOf st)
              (computeToBlock (thisFromOf st) batch cur toB rolling),
            Ev.saveLogTxs (extractLogs logs) (some e)],
            Outcome.fail ("failed to save data: " ++ e))
        | none =>
          match env.setLastRes idx with
          | some e =>
            ([Ev.window (thisFromOf st)
                (computeToBlock (thisFromOf st) batch cur toB rolling),
              Ev.filterLogs (thisFromOf st)
                (computeToBlock (thisFromOf st) batch cur toB rolling),
              Ev.saveLogTxs (extractLogs logs) none,
              Ev.setLast (computeToBlock (thisFromOf st) batch cur toB
                rolling) (some e)],
              Outcome.fail ("failed to save lastRecordedBlock: " ++ e))
          | none =>
            ([Ev.window (thisFromOf st)
                (computeToBlock (thisFromOf st) batch cur toB rolling),
              Ev.filterLogs (thisFromOf st)
                (computeToBlock (thisFromOf st) batch cur toB rolling),
              Ev.saveLogTxs (extractLogs logs) none,
              Ev.setLast (computeToBlock (thisFromOf st) batch cur toB
                rolling) none],
              Outcome.next ⟨computeToBlock (thisFromOf st) batch cur toB
                rolling, st.firstRun⟩)) := by
  unfold iterLog
  rw [hh]
  rfl

/-- Structure of one log-mode iteration: either the height query failed, or
the trace is the announced window, then exactly one `FilterLogs` call whose
range is exactly the computed window, then store events; no per-block fetch
is ever spawned, and a `.next` outcome carries the clipped upper bound with
`firstRun` untouched. -/
theorem iterLog_shape (env : Env) (idx toB batch : Nat) (rolling : Bool)
    (st : LoopSt) :
    (∃ e, iterLog env idx toB batch rolling st = ([], .fail e)) ∨
    (∃ cur evs out, env.height idx = .ok cur ∧
      iterLog env idx toB batch rolling st =
        (Ev.window (thisFromOf st)
          (computeToBlock (thisFromOf st) batch cur toB rolling) ::
          Ev.filterLogs (thisFromOf st)
            (computeToBlock (thisFromOf st) batch cur toB rolling) :: evs,
          out) ∧
      windowsOf evs = [] ∧
      (∀ n, Ev.fetchBlock n ∉ evs) ∧
      (∀ a b, Ev.filterLogs a b ∉ evs) ∧
      (∀ st', out = Outcome.next st' →
        st' = ⟨computeToBlock (thisFromOf st) batch cur toB rolling,
          st.firstRun⟩)) := by
  rcases hh : env.height idx with e | cur
  · exact Or.inl ⟨_, by unfold iterLog; rw [hh]⟩
  right
  refine ⟨cur, ?_⟩
  rw [iterLog_eq env idx toB batch rolling st cur hh]
  generalize thisFromOf st = A
  generalize hT : computeToBlock A batch cur toB rolling = T
  rcases hf : env.filterLogs A T with e | logs
  · exact ⟨[], .fail ("failed to filter logs: " ++ e), rfl, rfl, rfl,
      by simp, by simp, by simp⟩
  rcases hs : env.saveLogRes idx with _ | e
  · rcases hset : env.setLastRes idx with _ | e
    · exact ⟨[Ev.saveLogTxs (extractLogs logs) none, Ev.setLast T none],
        .next ⟨T, st.firstRun⟩, rfl, rfl, rfl, by simp, by simp,
        fun st' hst' => by cases hst'; rfl⟩
    · exact ⟨[Ev.saveLogTxs (extractLogs logs) none, Ev.setLast T (some e)],
        .fail ("failed to save lastRecordedBlock: " ++ e), rfl, rfl, rfl,
        by simp, by simp, by simp⟩
  · exact ⟨[Ev.saveLogTxs (extractLogs logs) (some e)],
      .fail ("failed to save data: " ++ e), rfl, rfl, rfl, by simp, by simp,
      by simp⟩

theorem windowsOf_cons_window (a b : Nat) (l : List Ev) :
    windowsOf (Ev.window a b :: l) = (a, b) :: windowsOf l := by
  simp [windowsOf, List.filterMap_cons]

/-- The clipped upper bound never exceeds a common bound on the current
height and the configured `toBlock`. -/
theorem computeToBlock_le (a batch cur toB M : Nat) (rolling : Bool)
    (hcur : cur ≤ M) (htoB : toB ≤ M) (ha : a + batch < w64) :
    computeToBlock a batch cur toB rolling ≤ M := by
  have h0 : add64 a batch = a + batch := add64_eq_of_lt _ _ ha
  simp only [computeToBlock, h0]
  cases rolling <;> by_cases h1 : cur < a + batch <;>
    simp only [h1, if_true, if_false, Bool.not_false, Bool.not_true,
      Bool.true_and, Bool.false_and, Bool.false_eq_true] <;>
    (try split_ifs) <;> omega

/-- The clipped upper bound stays at or above `c` whenever the reported
height does, the lower bound is above `c`, and (in bounded mode) the loop
condition held. -/
theorem computeToBlock_lower (a batch cur toB c : Nat) (rolling : Bool)
    (ha : a + batch < w64) (hccur : c ≤ cur) (hca : c < a)
    (hcond : rolling = true ∨ c < toB) :
    c ≤ computeToBlock a batch cur toB rolling := by
  have h0 : add64 a batch = a + batch := add64_eq_of_lt _ _ ha
  simp only [computeToBlock, h0]
  rcases hcond with hr | htoB
  · subst hr
    by_cases h1 : cur < a + batch <;>
      simp only [h1, if_true, if_false, Bool.not_true, Bool.false_and,
        Bool.false_eq_true] <;> omega
  · cases rolling <;> by_cases h1 : cur < a + batch <;>
      simp only [h1, if_true, if_false, Bool.not_false, Bool.not_true,
        Bool.true_and, Bool.false_and, Bool.false_eq_true] <;>
      (try split_ifs) <;> omega

/-- If the transaction-mode loop announces any window, the first one starts
at the resume state's lower bound. -/
theorem crawlLoopTx_head (env : Env) (toB batch : Nat) (rolling : Bool)
    (fuel idx : Nat) (st : LoopSt) (w : Nat × Nat) (ws : List (Nat × Nat))
    (h : windowsOf
      (crawlLoop iterTx env toB batch rolling fuel idx st).1 = w :: ws) :
    w.1 = thisFromOf st := by
  by_cases hcond : rolling = true ∨ st.lrb < toB
  · cases fuel with
    | zero =>
      rw [crawlLoop, if_pos hcond] at h
      simp [windowsOf] at h
    | succ f =>
      rw [crawlLoop, if_pos hcond] at h
      rcases iterTx_shape env idx toB batch rolling st with ⟨e, heq⟩ |
        ⟨cur, evs, out, hh, heq, hwin, _, _, hnext⟩
      · rw [heq] at h
        simp [windowsOf] at h
      · rw [heq] at h
        cases out with
        | next st' =>
          have h2 : windowsOf (Ev.window (thisFromOf st)
              (computeToBlock (thisFromOf st) batch cur toB rolling) ::
              (evs ++ (crawlLoop iterTx env toB batch rolling f (idx + 1)
                st').1)) = w :: ws := h
          rw [windowsOf_cons_window] at h2
          cases h2
          rfl
        | fail e => rw [windowsOf_cons_window] at h; cases h; rfl
        | hang => rw [windowsOf_cons_window] at h; cases h; rfl
        | panicked => rw [windowsOf_cons_window] at h; cases h; rfl
  · cases fuel with
    | zero =>
      rw [crawlLoop, if_neg hcond] at h
      simp [windowsOf] at h
    | succ f =>
      rw [crawlLoop, if_neg hcond] at h
      simp [windowsOf] at h

/-- If the log-mode loop announces any window, the first one starts at the
resume state's lower bound. -/
theorem crawlLoopLog_head (env : Env) (toB batch : Nat) (rolling : Bool)
    (fuel idx : Nat) (st : LoopSt) (w : Nat × Nat) (ws : List (Nat × Nat))
    (h : windowsOf
      (crawlLoop iterLog env toB batch rolling fuel idx st).1 = w :: ws) :
    w.1 = thisFromOf st := by
  by_cases hcond : rolling = true ∨ st.lrb < toB
  · cases fuel with
    | zero =>
      rw [crawlLoop, if_pos hcond] at h
      simp [windowsOf] at h
    | succ f =>
      rw [crawlLoop, if_pos hcond] at h
      rcases iterLog_shape env idx toB batch rolling st with ⟨e, heq⟩ |
        ⟨cur, evs, out, hh, heq, hwin, _, _, hnext⟩
      · rw [heq] at h
        simp [windowsOf] at h
      · rw [heq] at h
        cases out with
        | next st' =>
          have h2 : windowsOf (Ev.window (thisFromOf st)
              (computeToBlock (thisFromOf st) batch cur toB rolling) ::
              (Ev.filterLogs (thisFromOf st) (computeToBlock (thisFromOf st)
                batch cur toB rolling) ::
                (evs ++ (crawlLoop iterLog env toB batch rolling f (idx + 1)
                  st').1))) = w :: ws := h
          rw [windowsOf_cons_window] at h2
          cases h2
          rfl
        | fail e => rw [windowsOf_cons_window] at h; cases h; rfl
        | hang => rw [windowsOf_cons_window] at h; cases h; rfl
        | panicked => rw [windowsOf_cons_window] at h; cases h; rfl
  · cases fuel with
    | zero =>
      rw [crawlLoop, if_neg hcond] at h
      simp [windowsOf] at h
    | succ f =>
      rw [crawlLoop, if_neg hcond] at h
      simp [windowsOf] at h

/-- Resuming from a nonzero checkpoint `c`: as long as every reported
height lies in `[c, M]` and the window arithmetic cannot overflow, no loop
iteration ever spawns a fetch for a block at or below `c`. -/
theorem crawlLoopTx_no_refetch (env : Env) (toB batch : Nat) (rolling : Bool)
    (c M : Nat)
    (hH : ∀ k cur, env.height k = .ok cur → c ≤ cur ∧ cur ≤ M)
    (htoB : toB ≤ M) (hM : M + 1 + batch < w64) :
    ∀ fuel idx st, st.firstRun = false → c ≤ st.lrb → st.lrb ≤ M →
      ∀ n, Ev.fetchBlock n ∈
        (crawlLoop iterTx env toB batch rolling fuel idx st).1 → c < n := by
  intro fuel
  induction fuel with
  | zero =>
    intro idx st _ _ _ n hn
    rw [crawlLoop] at hn
    split_ifs at hn <;> simp at hn
  | succ f ih =>
    intro idx st hfr hcl hlM n hn
    by_cases hcond : rolling = true ∨ st.lrb < toB
    · rw [crawlLoop, if_pos hcond] at hn
      rcases iterTx_shape env idx toB batch rolling st with ⟨e, heq⟩ |
        ⟨cur, evs, out, hh, heq, hwin, hmem, hpres, hnext⟩
      · rw [heq] at hn
        simp at hn
      · have hA : thisFromOf st = st.lrb + 1 := by
          have hlt : st.lrb + 1 < w64 := by omega
          simp [thisFromOf, hfr, add64_eq_of_lt _ _ hlt]
        obtain ⟨hc1, hc2⟩ := hH idx cur hh
        have hup : computeToBlock (thisFromOf st) batch cur toB rolling ≤ M := by
          rw [hA]
          exact computeToBlock_le _ _ _ _ _ _ hc2 htoB (by omega)
        have hlo : c ≤ computeToBlock (thisFromOf st) batch cur toB rolling := by
          rw [hA]
          exact computeToBlock_lower _ _ _ _ _ _ (by omega) hc1 (by omega)
            (hcond.imp_right fun hlt => lt_of_le_of_lt hcl hlt)
        have hinevs : ∀ m, Ev.fetchBlock m ∈ evs → c < m := by
          intro m hm
          have := (hmem m hm).1
          omega
        rw [heq] at hn
        cases out with
        | next st' =>
          have hn2 : Ev.fetchBlock n ∈ Ev.window (thisFromOf st)
              (computeToBlock (thisFromOf st) batch cur toB rolling) ::
              (evs ++ (crawlLoop iterTx env toB batch rolling f (idx + 1)
                st').1) := hn
          rcases List.mem_cons.mp hn2 with hw | hrest
          · cases hw
          rcases List.mem_append.mp hrest with hv | hrec
          · exact hinevs n hv
          · have hst' := hnext st' rfl
            subst hst'
            exact ih (idx + 1)
              ⟨computeToBlock (thisFromOf st) batch cur toB rolling,
                st.firstRun⟩ hfr hlo hup n hrec
        | fail e =>
          rcases List.mem_cons.mp hn with hw | hv
          · cases hw
          · exact hinevs n hv
        | hang =>
          rcases List.mem_cons.mp hn with hw | hv
          · cases hw
          · exact hinevs n hv
        | panicked =>
          rcases List.mem_cons.mp hn with hw | hv
          · cases hw
          · exact hinevs n hv
    · rw [crawlLoop, if_neg hcond] at hn
      simp at hn

/-- Log-mode analogue: resuming from a nonzero checkpoint `c`, every
`FilterLogs` range query issued by the loop has its lower bound above `c`. -/
theorem crawlLoopLog_filter_lb (env : Env) (toB batch : Nat) (rolling : Bool)
    (c M : Nat)
    (hH : ∀ k cur, env.height k = .ok cur → c ≤ cur ∧ cur ≤ M)
    (htoB : toB ≤ M) (hM : M + 1 + batch < w64) :
    ∀ fuel idx st, st.firstRun = false → c ≤ st.lrb → st.lrb ≤ M →
      ∀ a b, Ev.filterLogs a b ∈
        (crawlLoop iterLog env toB batch rolling fuel idx st).1 → c < a := by
  intro fuel
  induction fuel with
  | zero =>
    intro idx st _ _ _ a b hn
    rw [crawlLoop] at hn
    split_ifs at hn <;> simp at hn
  | succ f ih =>
    intro idx st hfr hcl hlM a b hn
    by_cases hcond : rolling = true ∨ st.lrb < toB
    · rw [crawlLoop, if_pos hcond] at hn
      rcases iterLog_shape env idx toB batch rolling st with ⟨e, heq⟩ |
        ⟨cur, evs, out, hh, heq, hwin, hnofetch, hnofilter, hnext⟩
      · rw [heq] at hn
        simp at hn
      · have hA : thisFromOf st = st.lrb + 1 := by
          have hlt : st.lrb + 1 < w64 := by omega
          simp [thisFromOf, hfr, add64_eq_of_lt _ _ hlt]
        obtain ⟨hc1, hc2⟩ := hH idx cur hh
        have hup : computeToBlock (thisFromOf st) batch cur toB rolling ≤ M := by
          rw [hA]
          exact computeToBlock_le _ _ _ _ _ _ hc2 htoB (by omega)
        have hlo : c ≤ computeToBlock (thisFromOf st) batch cur toB rolling := by
          rw [hA]
          exact computeToBlock_lower _ _ _ _ _ _ (by omega) hc1 (by omega)
            (hcond.imp_right fun hlt => lt_of_le_of_lt hcl hlt)
        rw [heq] at hn
        cases out with
        | next st' =>
          have hn2 : Ev.filterLogs a b ∈ Ev.window (thisFromOf st)
              (computeToBlock (thisFromOf st) batch cur toB rolling) ::
              (Ev.filterLogs (thisFromOf st)
                (computeToBlock (thisFromOf st) batch cur toB rolling) ::
                (evs ++ (crawlLoop iterLog env toB batch rolling f (idx + 1)
                  st').1)) := hn
          rcases List.mem_cons.mp hn2 with hw | hrest
          · cases hw
          rcases List.mem_cons.mp hrest with hfl | hrest2
          · cases hfl
            omega
          rcases List.mem_append.mp hrest2 with hv | hrec
          · exact absurd hv (hnofilter a b)
          · have hst' := hnext st' rfl
            subst hst'
            exact ih (idx + 1)
              ⟨computeToBlock (thisFromOf st) batch cur toB rolling,
                st.firstRun⟩ hfr hlo hup a b hrec
        | fail e =>
          rcases List.mem_cons.mp hn with hw | hrest
          · cases hw
          rcases List.mem_cons.mp hrest with hfl | hv
          · cases hfl
            omega
          · exact absurd hv (hnofilter a b)
        | hang =>
          rcases List.mem_cons.mp hn with hw | hrest
          · cases hw
          rcases List.mem_cons.mp hrest with hfl | hv
          · cases hfl
            omega
          · exact absurd hv (hnofilter a b)
        | panicked =>
          rcases List.mem_cons.mp hn with hw | hrest
          · cases hw
          rcases List.mem_cons.mp hrest with hfl | hv
          · cases hfl
            omega
          · exact absurd hv (hnofilter a b)
    · rw [crawlLoop, if_neg hcond] at hn
      simp at hn

/-- A fully healthy concrete environment: chain height 100, every block
fetch succeeds with an empty transaction list, every log query returns no
events, every store call succeeds. -/
def envA : Env :=
  { height := fun _ => .ok 100
    blockByNumber := fun n => .ok ⟨n, []⟩
    filterLogs := fun _ _ => .ok []
    saveTxsRes := fun _ => none
    saveLogRes := fun _ => none
    setLastRes := fun _ => none }

/-- C1 (amended).  Resume correctness holds for every durably stored
checkpoint `c > 0` (with `c + 1` and the window arithmetic below the
`uint64` wrap, and reported heights at least `c`): the first window of
either mode starts at `c + 1`, no transaction-mode fetch and no log-mode
range query ever touches a block at or below `c`, and with the checkpoint
absent the first window of either mode starts at the configured
`fromBlock`.  (As stated, the original claim fails at the stored value
`c = 0`, which the getter cannot distinguish from absence.) -/
theorem C1_resume_correctness (env : Env) (fromB toB batch : Nat)
    (rolling : Bool) (fuel : Nat) (c M : Nat) (hc : 0 < c) (hcM : c ≤ M)
    (htoB : toB ≤ M) (hM : M + 1 + batch < w64)
    (hH : ∀ k cur, env.height k = .ok cur → c ≤ cur ∧ cur ≤ M) :
    (∀ n, Ev.fetchBlock n ∈ (getAndSaveTxs env (SetLastRecordedBlockStored c)
      fromB toB batch rolling fuel).1 → c < n) ∧
    (∀ a b, Ev.filterLogs a b ∈ (getAndSaveLogsTxs env
      (SetLastRecordedBlockStored c) fromB toB batch rolling fuel).1 →
      c < a) ∧
    (∀ w ws, windowsOf (getAndSaveTxs env (SetLastRecordedBlockStored c)
      fromB toB batch rolling fuel).1 = w :: ws → w.1 = c + 1) ∧
    (∀ w ws, windowsOf (getAndSaveLogsTxs env (SetLastRecordedBlockStored c)
      fromB toB batch rolling fuel).1 = w :: ws → w.1 = c + 1) ∧
    (∀ w ws, windowsOf (getAndSaveTxs env RedisReply.nil
      fromB toB batch rolling fuel).1 = w :: ws → w.1 = fromB) ∧
    (∀ w ws, windowsOf (getAndSaveLogsTxs env RedisReply.nil
      fromB toB batch rolling fuel).1 = w :: ws → w.1 = fromB) := by
  have hcw : c < w64 := by omega
  have hne : c ≠ 0 := by omega
  have hget : GetLastRecordedBlock (SetLastRecordedBlockStored c) =
      .ok c := by
    simp [SetLastRecordedBlockStored, GetLastRecordedBlock,
      parseUint64_formatUint c hcw]
  have hres : resumeSt c fromB = ⟨c, false⟩ := by simp [resumeSt, hne]
  have hTx : getAndSaveTxs env (SetLastRecordedBlockStored c)
      fromB toB batch rolling fuel =
      crawlLoop iterTx env toB batch rolling fuel 0 ⟨c, false⟩ := by
    simp [getAndSaveTxs, hget, hres]
  have hLog : getAndSaveLogsTxs env (SetLastRecordedBlockStored c)
      fromB toB batch rolling fuel =
      crawlLoop iterLog env toB batch rolling fuel 0 ⟨c, false⟩ := by
    simp [getAndSaveLogsTxs, hget, hres]
  have hTxNil : getAndSaveTxs env RedisReply.nil
      fromB toB batch rolling fuel =
      crawlLoop iterTx env toB batch rolling fuel 0 ⟨fromB, true⟩ := by
    simp [getAndSaveTxs, GetLastRecordedBlock, resumeSt]
  have hLogNil : getAndSaveLogsTxs env RedisReply.nil
      fromB toB batch rolling fuel =
      crawlLoop iterLog env toB batch rolling fuel 0 ⟨fromB, true⟩ := by
    simp [getAndSaveLogsTxs, GetLastRecordedBlock, resumeSt]
  have hsucc : add64 c 1 = c + 1 := add64_eq_of_lt _ _ (by omega)
  refine ⟨?_, ?_, ?_, ?_, ?_, ?_⟩
  · intro n hn
    rw [hTx] at hn
    exact crawlLoopTx_no_refetch env toB batch rolling c M hH htoB hM
      fuel 0 ⟨c, false⟩ rfl (le_refl c) hcM n hn
  · intro a b hn
    rw [hLog] at hn
    exact crawlLoopLog_filter_lb env toB batch rolling c M hH htoB hM
      fuel 0 ⟨c, false⟩ rfl (le_refl c) hcM a b hn
  · intro w ws hw
    rw [hTx] at hw
    have := crawlLoopTx_head env toB batch rolling fuel 0 ⟨c, false⟩ w ws hw
    simpa [thisFromOf, hsucc] using this
  · intro w ws hw
    rw [hLog] at hw
    have := crawlLoopLog_head env toB batch rolling fuel 0 ⟨c, false⟩ w ws hw
    simpa [thisFromOf, hsucc] using this
  · intro w ws hw
    rw [hTxNil] at hw
    have := crawlLoopTx_head env toB batch rolling fuel 0 ⟨fromB, true⟩ w ws hw
    simpa [thisFromOf] using this
  · intro w ws hw
    rw [hLogNil] at hw
    have := crawlLoopLog_head env toB batch rolling fuel 0 ⟨fromB, true⟩ w ws hw
    simpa [thisFromOf] using this

/-- C1 witness: at checkpoint 10 in `envA`, the first window starts at 11
and block 9 is not re-fetched. -/
theorem C1_resume_correctness_witness :
    ((11, 13) : Nat × Nat).1 = 10 + 1 ∧
    Ev.fetchBlock 9 ∉
      (getAndSaveTxs envA (SetLastRecordedBlockStored 10)
        5 20 2 false 3).1 := by
  have h := C1_resume_correctness envA 5 20 2 false 3 10 100 (by norm_num)
    (by norm_num) (by norm_num) (by norm_num [w64])
    (fun k cur hk => by
      injection hk with hk
      subst hk
      norm_num)
  refine ⟨?_, ?_⟩
  · exact h.2.2.1 (11, 13) [(14, 16), (17, 19)] (by decide)
  · intro hmem
    have := h.1 9 hmem
    omega

/-- C1 counterexample: the claim as stated fails at the stored checkpoint
value `c = 0` — the value is present in the store, yet the first window
starts at the configured `fromBlock` 5, not at `c + 1 = 1`. -/
theorem C1_counterexample :
    (windowsOf (getAndSaveTxs envA (SetLastRecordedBlockStored 0)
      5 6 2 false 3).1).head? = some (5, 6) ∧ (5 : Nat) ≠ 0 + 1 := by
  constructor
  · decide
  · decide

/-- C4.  Window bound safety: for every combination of inputs the clipped
upper bound (height clip applied first, `toBlock` clip second, exactly as
in the source) never exceeds the reported current height, and with
`rolling = false` it also never exceeds the configured `toBlock`. -/
theorem C4_window_bound_safety (thisFrom batch cur toB : Nat)
    (rolling : Bool) :
    computeToBlock thisFrom batch cur toB rolling ≤ cur ∧
      (rolling = false →
        computeToBlock thisFrom batch cur toB rolling ≤ toB) := by
  unfold computeToBlock
  cases rolling with
  | false =>
    constructor
    · simp only [Bool.not_false, Bool.true_and, decide_eq_true_eq]
      split_ifs <;> omega
    · intro _
      simp only [Bool.not_false, Bool.true_and, decide_eq_true_eq]
      split_ifs <;> omega
  | true =>
    constructor
    · simp only [Bool.not_true, Bool.false_and, Bool.false_eq_true,
        if_false]
      split_ifs <;> omega
    · intro hr
      cases hr

/-- C4 witness at `fromBlock`-side 100, batch 25, height 120, `toBlock`
110, bounded mode. -/
theorem C4_window_bound_safety_witness :
    computeToBlock 100 25 120 110 false ≤ 120 ∧
      computeToBlock 100 25 120 110 false ≤ 110 :=
  ⟨(C4_window_bound_safety 100 25 120 110 false).1,
    (C4_window_bound_safety 100 25 120 110 false).2 rfl⟩

/-- C7 counterexample: a durably stored checkpoint value `0` is
indistinguishable from an absent key — both read back as `0`, and the
controller's resume step then runs the first-run branch (`firstRun = true`,
resume position = configured `fromBlock`), contradicting the claim that a
stored `0` does not trigger first-run behavior. -/
theorem C7_counterexample :
    GetLastRecordedBlock (SetLastRecordedBlockStored 0) =
      GetLastRecordedBlock RedisReply.nil ∧
    resumeSt 0 5 = ⟨5, true⟩ := by
  exact ⟨rfl, rfl⟩

/-- C7 (amended).  The checkpoint getter does not distinguish absence from
a stored `0`: `redis.Nil` is collapsed to the value `0`, and first-run
semantics triggers exactly when the retrieved value is `0`.  Hence every
stored value `c > 0` reads back as `c` and resumes without first-run
behavior, while a stored `0` behaves exactly like an absent checkpoint. -/
theorem C7_checkpoint_absent_collapse (c fromB : Nat) (hc : 0 < c)
    (hw : c < w64) :
    GetLastRecordedBlock (SetLastRecordedBlockStored c) = .ok c ∧
    resumeSt c fromB = ⟨c, false⟩ ∧
    GetLastRecordedBlock RedisReply.nil = .ok 0 ∧
    resumeSt 0 fromB = ⟨fromB, true⟩ := by
  have hne : c ≠ 0 := by omega
  refine ⟨?_, by simp [resumeSt, hne], rfl, rfl⟩
  simp [SetLastRecordedBlockStored, GetLastRecordedBlock,
    parseUint64_formatUint c hw]

/-- C7 witness at stored checkpoint 7, configured fromBlock 3. -/
theorem C7_checkpoint_absent_collapse_witness :
    GetLastRecordedBlock (SetLastRecordedBlockStored 7) = .ok 7 ∧
    resumeSt 7 3 = ⟨7, false⟩ :=
  ⟨(C7_checkpoint_absent_collapse 7 3 (by norm_num) (by norm_num [w64])).1,
    (C7_checkpoint_absent_collapse 7 3 (by norm_num)
      (by norm_num [w64])).2.1⟩

/-! ## Key-scoping facts for C10 -/

theorem string_data_inj {a b : String} (h : a.data = b.data) : a = b := by
  cases a
  cases b
  exact congrArg String.mk h

theorem str_append_right_cancel {a b cs : String} (h : a ++ cs = b ++ cs) :
    a = b := by
  apply string_data_inj
  have hd := congrArg String.data h
  rw [String.data_append, String.data_append] at hd
  exact List.append_cancel_right hd

theorem effLabel_inj {l1 l2 : String} (h : effLabel l1 = effLabel l2) :
    l1 = l2 := by
  unfold effLabel at h
  by_cases h1 : l1 = ""
  · by_cases h2 : l2 = ""
    · rw [h1, h2]
    · rw [if_pos h1, if_neg h2] at h
      exfalso
      have hd := congrArg String.data h
      rw [String.data_append, String.data_append] at hd
      have hlen := congrArg List.length hd
      rw [List.length_append, List.length_append] at hlen
      have h12 : (keyPrefix.data).length = 12 := rfl
      have hat : ("@" : String).data.length = 1 := rfl
      omega
  · by_cases h2 : l2 = ""
    · rw [if_neg h1, if_pos h2] at h
      exfalso
      have hd := congrArg String.data h
      rw [String.data_append, String.data_append] at hd
      have hlen := congrArg List.length hd
      rw [List.length_append, List.length_append] at hlen
      have h12 : (keyPrefix.data).length = 12 := rfl
      have hat : ("@" : String).data.length = 1 := rfl
      omega
    · rw [if_neg h1, if_neg h2] at h
      have hd := congrArg String.data h
      rw [String.data_append, String.data_append, String.data_append,
        String.data_append] at hd
      exact string_data_inj (List.append_cancel_left hd)

theorem lastRecordedBlockKey_label_inj {l1 l2 m : String}
    (h : lastRecordedBlockKey l1 m = lastRecordedBlockKey l2 m) :
    l1 = l2 := by
  unfold lastRecordedBlockKey at h
  exact effLabel_inj
    (str_append_right_cancel (str_append_right_cancel
      (str_append_right_cancel h)))

theorem logDataKey_label_inj {l1 l2 addr : String}
    (h : logDataKey l1 addr = logDataKey l2 addr) : l1 = l2 := by
  unfold logDataKey at h
  exact effLabel_inj
    (str_append_right_cancel (str_append_right_cancel h))

/-- C10.  Key-scoping asymmetry: the transaction-mode record key is the
fixed string `ethtxcrawler:txs`, independent of the service label, while
the log-mode record key and the checkpoint key are injective in the label
(for a fixed mode respectively address).  Hence two transaction-mode
instances with different labels share one record key but keep distinct
checkpoints. -/
theorem C10_key_scoping (l1 l2 mode addr : String) :
    txDataKey l1 = txDataKey l2 ∧
    txDataKey l1 = "ethtxcrawler:txs" ∧
    (l1 ≠ l2 → lastRecordedBlockKey l1 mode ≠ lastRecordedBlockKey l2 mode) ∧
    (l1 ≠ l2 → logDataKey l1 addr ≠ logDataKey l2 addr) := by
  refine ⟨rfl, rfl, ?_, ?_⟩
  · intro hne heq
    exact hne (lastRecordedBlockKey_label_inj heq)
  · intro hne heq
    exact hne (logDataKey_label_inj heq)

/-- C10 witness at the labels `alice` and `bob`. -/
theorem C10_key_scoping_witness :
    txDataKey "alice" = txDataKey "bob" ∧
    lastRecordedBlockKey "alice" "txs" ≠ lastRecordedBlockKey "bob" "txs" ∧
    logDataKey "alice" "0xaa" ≠ logDataKey "bob" "0xaa" :=
  ⟨(C10_key_scoping "alice" "bob" "txs" "0xaa").1,
    (C10_key_scoping "alice" "bob" "txs" "0xaa").2.2.1 (by decide),
    (C10_key_scoping "alice" "bob" "txs" "0xaa").2.2.2 (by decide)⟩

theorem setAfterSave_window (a b : Nat) (l : List Ev) (saw : Bool) :
    setAfterSave (Ev.window a b :: l) saw = setAfterSave l saw := rfl

theorem setAfterSave_fetches (ns : List Nat) (rest : List Ev) (saw : Bool) :
    setAfterSave (ns.map Ev.fetchBlock ++ rest) saw =
      setAfterSave rest saw := by
  induction ns with
  | nil => rfl
  | cons n r ih => simpa [setAfterSave] using ih

/-- C3.  Persist-before-checkpoint ordering, both modes: in every loop
iteration each checkpoint write in the trace is preceded by a record write
that returned without error, and if the record write fails the iteration
returns an error and never invokes the checkpoint write at all. -/
theorem C3_persist_before_checkpoint (env : Env) (idx toB batch : Nat)
    (rolling : Bool) (st : LoopSt) :
    setAfterSave (iterTx env idx toB batch rolling st).1 false = true ∧
    setAfterSave (iterLog env idx toB batch rolling st).1 false = true ∧
    ((∃ d e, Ev.saveTxs d (some e) ∈
        (iterTx env idx toB batch rolling st).1) →
      (∃ m, (iterTx env idx toB batch rolling st).2 = .fail m) ∧
      ∀ n r, Ev.setLast n r ∉ (iterTx env idx toB batch rolling st).1) ∧
    ((∃ d e, Ev.saveLogTxs d (some e) ∈
        (iterLog env idx toB batch rolling st).1) →
      (∃ m, (iterLog env idx toB batch rolling st).2 = .fail m) ∧
      ∀ n r, Ev.setLast n r ∉ (iterLog env idx toB batch rolling st).1) := by
  refine ⟨?_, ?_, ?_, ?_⟩
  · rcases hh : env.height idx with e | cur
    · have heq : iterTx env idx toB batch rolling st =
          ([], .fail ("failed to get current block number: " ++ e)) := by
        unfold iterTx
        rw [hh]
      rw [heq]
      rfl
    · rw [iterTx_eq env idx toB batch rolling st cur hh]
      generalize thisFromOf st = A
      generalize computeToBlock A batch cur toB rolling = T
      by_cases hnb : int64ofUint64 (add64 (sub64 T A) 1) < 0
      · rw [if_pos hnb]
        rfl
      · rw [if_neg hnb]
        rcases hcb : collectBlocks env (blockRange A T) with e | bs
        · show setAfterSave (Ev.window A T ::
            (blockRange A T).map Ev.fetchBlock) false = true
          rw [setAfterSave_window,
            show (blockRange A T).map Ev.fetchBlock
              = (blockRange A T).map Ev.fetchBlock ++ [] from
                (List.append_nil _).symm,
            setAfterSave_fetches]
          rfl
        · rcases hs : env.saveTxsRes idx with _ | e
          · rcases hset : env.setLastRes idx with _ | e
            · show setAfterSave (Ev.window A T ::
                ((blockRange A T).map Ev.fetchBlock ++
                  [Ev.saveTxs (bs.map extractBlockTxs) none,
                    Ev.setLast T none])) false = true
              rw [setAfterSave_window, setAfterSave_fetches]
              rfl
            · show setAfterSave (Ev.window A T ::
                ((blockRange A T).map Ev.fetchBlock ++
                  [Ev.saveTxs (bs.map extractBlockTxs) none,
                    Ev.setLast T (some e)])) false = true
              rw [setAfterSave_window, setAfterSave_fetches]
              rfl
          · show setAfterSave (Ev.window A T ::
              ((blockRange A T).map Ev.fetchBlock ++
                [Ev.saveTxs (bs.map extractBlockTxs) (some e)])) false = true
            rw [setAfterSave_window, setAfterSave_fetches]
            rfl
  · rcases hh : env.height idx with e | cur
    · have heq : iterLog env idx toB batch rolling st =
          ([], .fail ("failed to get current block number: " ++ e)) := by
        unfold iterLog
        rw [hh]
      rw [heq]
      rfl
    · rw [iterLog_eq env idx toB batch rolling st cur hh]
      generalize thisFromOf st = A
      generalize computeToBlock A batch cur toB rolling = T
      rcases hf : env.filterLogs A T with e | logs
      · rfl
      rcases hs : env.saveLogRes idx with _ | e
      · rcases hset : env.setLastRes idx with _ | e <;> rfl
      · rfl
  · rcases hh : env.height idx with e | cur
    · have heq : iterTx env idx toB batch rolling st =
          ([], .fail ("failed to get current block number: " ++ e)) := by
        unfold iterTx
        rw [hh]
      rw [heq]
      rintro ⟨d, e', hmem⟩
      simp at hmem
    · rw [iterTx_eq env idx toB batch rolling st cur hh]
      generalize thisFromOf st = A
      generalize computeToBlock A batch cur toB rolling = T
      by_cases hnb : int64ofUint64 (add64 (sub64 T A) 1) < 0
      · rw [if_pos hnb]
        rintro ⟨d, e', hmem⟩
        simp at hmem
      · rw [if_neg hnb]
        rcases hcb : collectBlocks env (blockRange A T) with e | bs
        · rintro ⟨d, e', hmem⟩
          simp [List.mem_map] at hmem
        · rcases hs : env.saveTxsRes idx with _ | e
          · rcases hset : env.setLastRes idx with _ | e
            · rintro ⟨d, e', hmem⟩
              simp [List.mem_map] at hmem
            · rintro ⟨d, e', hmem⟩
              simp [List.mem_map] at hmem
          · rintro ⟨d, e', hmem⟩
            refine ⟨⟨_, rfl⟩, ?_⟩
            intro n r hset'
            simp [List.mem_map] at hset'
  · rcases hh : env.height idx with e | cur
    · have heq : iterLog env idx toB batch rolling st =
          ([], .fail ("failed to get current block number: " ++ e)) := by
        unfold iterLog
        rw [hh]
      rw [heq]
      rintro ⟨d, e', hmem⟩
      simp at hmem
    · rw [iterLog_eq env idx toB batch rolling st cur hh]
      generalize thisFromOf st = A
      generalize computeToBlock A batch cur toB rolling = T
      rcases hf : env.filterLogs A T with e | logs
      · rintro ⟨d, e', hmem⟩
        simp at hmem
      rcases hs : env.saveLogRes idx with _ | e
      · rcases hset : env.setLastRes idx with _ | e
        · rintro ⟨d, e', hmem⟩
          simp at hmem
        · rintro ⟨d, e', hmem⟩
          simp at hmem
      · rintro ⟨d, e', hmem⟩
        refine ⟨⟨_, rfl⟩, ?_⟩
        intro n r hset'
        simp at hset'

/-- An environment whose record writes always fail. -/
def envSaveFail : Env :=
  { height := fun _ => .ok 5
    blockByNumber := fun n => .ok ⟨n, []⟩
    filterLogs := fun _ _ => .ok []
    saveTxsRes := fun _ => some "boom"
    saveLogRes := fun _ => some "boom"
    setLastRes := fun _ => none }

/-- C3 witness: with a failing record write the iteration keeps the trace
well ordered, does not reach `.next`, and never writes the checkpoint. -/
theorem C3_persist_before_checkpoint_witness :
    setAfterSave (iterTx envSaveFail 0 20 2 true ⟨5, false⟩).1 false = true ∧
    (iterTx envSaveFail 0 20 2 true ⟨5, false⟩).2 ≠
      Outcome.next ⟨5, false⟩ ∧
    Ev.setLast 5 none ∉ (iterTx envSaveFail 0 20 2 true ⟨5, false⟩).1 := by
  have h := C3_persist_before_checkpoint envSaveFail 0 20 2 true ⟨5, false⟩
  have hex : ∃ d e, Ev.saveTxs d (some e) ∈
      (iterTx envSaveFail 0 20 2 true ⟨5, false⟩).1 :=
    ⟨[], "boom", by decide⟩
  refine ⟨h.1, ?_, (h.2.2.1 hex).2 5 none⟩
  obtain ⟨m, hm⟩ := (h.2.2.1 hex).1
  rw [hm]
  intro hcontr
  cases hcontr

/-- Like `envA` but with the chain height pinned to 10. -/
def envB : Env :=
  { height := fun _ => .ok 10
    blockByNumber := fun n => .ok ⟨n, []⟩
    filterLogs := fun _ _ => .ok []
    saveTxsRes := fun _ => none
    saveLogRes := fun _ => none
    setLastRes := fun _ => none }

/-- C6 counterexample: in log mode, when the current height equals the
resume checkpoint 10, the controller does issue a `FilterLogs` request over
the inverted range `[11, 10]` — refuting the claim that no inverted-range
request is sent to the ledger source. -/
theorem C6_counterexample :
    Ev.filterLogs 11 10 ∈ (iterLog envB 0 20 5 true ⟨10, false⟩).1 ∧
      10 < 11 := by
  constructor
  · decide
  · decide

/-- C6 (amended).  When the reported height equals a nonzero resume
checkpoint `c` (non-first-run) and the window arithmetic does not wrap:
the transaction-mode iteration spawns no fetch task (the `uint64`
evaluation of `thisToBlock - thisFromBlock + 1` is exactly `0`) and any
checkpoint write in the iteration writes exactly the unchanged `c`; the
log-mode iteration likewise writes only `c`, but it does issue one
`FilterLogs` call over the inverted range `[c + 1, c]` instead of
skipping. -/
theorem C6_degenerate_window (env : Env) (idx toB batch c : Nat)
    (rolling : Bool) (hc : c + 1 + batch < w64)
    (hh : env.height idx = .ok c) (hroll : rolling = true ∨ c ≤ toB) :
    (∀ n, Ev.fetchBlock n ∉ (iterTx env idx toB batch rolling ⟨c, false⟩).1) ∧
    (∀ n r, Ev.setLast n r ∈
      (iterTx env idx toB batch rolling ⟨c, false⟩).1 → n = c) ∧
    (Ev.filterLogs (c + 1) c ∈
      (iterLog env idx toB batch rolling ⟨c, false⟩).1) ∧
    (∀ n r, Ev.setLast n r ∈
      (iterLog env idx toB batch rolling ⟨c, false⟩).1 → n = c) := by
  have hA : thisFromOf (⟨c, false⟩ : LoopSt) = c + 1 := by
    simp [thisFromOf, add64_eq_of_lt c 1 (by omega)]
  have hT : computeToBlock (c + 1) batch c toB rolling = c := by
    unfold computeToBlock
    rw [add64_eq_of_lt _ _ hc]
    have hcond1 : c < c + 1 + batch := by omega
    simp only [hcond1, if_true]
    cases rolling with
    | true => simp
    | false =>
      rcases hroll with hr | hle
      · cases hr
      · simp only [Bool.not_false, Bool.true_and, decide_eq_true_eq]
        rw [if_neg (by omega : ¬ toB < c)]
  have hnb : ¬ int64ofUint64 (add64 (sub64 c (c + 1)) 1) < 0 := by
    rw [sub64_wraparound_zero c (by omega)]
    simp [int64ofUint64]
  have hbr : blockRange (c + 1) c = [] := by
    unfold blockRange
    rw [if_neg (by omega)]
  have hcoll : collectBlocks env (blockRange (c + 1) c) = .ok [] := by
    rw [hbr]
    rfl
  refine ⟨?_, ?_, ?_, ?_⟩
  · intro n
    rw [iterTx_eq env idx toB batch rolling ⟨c, false⟩ c hh, hA, hT,
      if_neg hnb, hcoll]
    rcases hs : env.saveTxsRes idx with _ | e
    · rcases hset : env.setLastRes idx with _ | e <;> simp [hbr]
    · simp [hbr]
  · intro n r
    rw [iterTx_eq env idx toB batch rolling ⟨c, false⟩ c hh, hA, hT,
      if_neg hnb, hcoll]
    rcases hs : env.saveTxsRes idx with _ | e
    · rcases hset : env.setLastRes idx with _ | e <;>
        · intro hmem
          simp [hbr] at hmem
          exact hmem.1
    · intro hmem
      simp [hbr] at hmem
  · rw [iterLog_eq env idx toB batch rolling ⟨c, false⟩ c hh, hA, hT]
    rcases hf : env.filterLogs (c + 1) c with e | logs
    · simp
    rcases hs : env.saveLogRes idx with _ | e
    · rcases hset : env.setLastRes idx with _ | e <;> simp
    · simp
  · intro n r
    rw [iterLog_eq env idx toB batch rolling ⟨c, false⟩ c hh, hA, hT]
    rcases hf : env.filterLogs (c + 1) c with e | logs
    · intro hmem
      simp at hmem
    rcases hs : env.saveLogRes idx with _ | e
    · rcases hset : env.setLastRes idx with _ | e <;>
        · intro hmem
          simp at hmem
          exact hmem.1
    · intro hmem
      simp at hmem

/-- C6 witness at checkpoint 10, height 10. -/
theorem C6_degenerate_window_witness :
    Ev.fetchBlock 10 ∉ (iterTx envB 0 20 5 true ⟨10, false⟩).1 ∧
    Ev.filterLogs 11 10 ∈ (iterLog envB 0 20 5 true ⟨10, false⟩).1 := by
  have h := C6_degenerate_window envB 0 20 5 10 true (by norm_num [w64])
    rfl (Or.inl rfl)
  exact ⟨h.1 10, h.2.2.1⟩

theorem lookupBlock_insBlock (bm : DatasByBlock) (bn bn' : Nat)
    (d : EthData) :
    lookupBlock (insBlock bm bn d) bn' =
      if bn = bn' then lookupBlock bm bn' ++ [d]
      else lookupBlock bm bn' := by
  induction bm with
  | nil =>
    by_cases h : bn = bn' <;> simp [insBlock, lookupBlock, h]
  | cons kv rest ih =>
    obtain ⟨k, ds⟩ := kv
    by_cases hk : k = bn
    · subst hk
      by_cases h2 : k = bn' <;> simp [insBlock, lookupBlock, h2]
    · by_cases h2 : k = bn'
      · subst h2
        have hbk : ¬ bn = k := fun h => hk h.symm
        simp [insBlock, lookupBlock, hk, hbk]
      · simp [insBlock, lookupBlock, hk, h2, ih]

theorem lookupAddr_insAddr (m : DatasByAddr) (a a' : String) (bn : Nat)
    (d : EthData) :
    lookupAddr (insAddr m a bn d) a' =
      if a = a' then insBlock (lookupAddr m a') bn d
      else lookupAddr m a' := by
  induction m with
  | nil =>
    by_cases h : a = a' <;> simp [insAddr, insBlock, lookupAddr, h]
  | cons kv rest ih =>
    obtain ⟨k, bm⟩ := kv
    by_cases hk : k = a
    · subst hk
      by_cases h2 : k = a' <;> simp [insAddr, lookupAddr, h2]
    · by_cases h2 : k = a'
      · subst h2
        have hak : ¬ a = k := fun h => hk h.symm
        simp [insAddr, lookupAddr, hk, hak]
      · simp [insAddr, lookupAddr, hk, h2, ih]

theorem bucket_extract_aux (logs : List LogEv) :
    ∀ (m : DatasByAddr) (a : String) (bn : Nat),
      bucket (logs.foldl (fun m l =>
        insAddr m (toLowerStr l.addressHex) l.blockNumber (logRecordOf l)) m)
        a bn =
      bucket m a bn ++ (logs.filter fun l =>
        (toLowerStr l.addressHex) == a && l.blockNumber == bn).map
          logRecordOf := by
  induction logs with
  | nil =>
    intro m a bn
    simp
  | cons l r ih =>
    intro m a bn
    rw [List.foldl_cons, ih]
    have hb : bucket (insAddr m (toLowerStr l.addressHex) l.blockNumber
        (logRecordOf l)) a bn =
        bucket m a bn ++ (if (toLowerStr l.addressHex) = a ∧ l.blockNumber = bn
          then [logRecordOf l] else []) := by
      unfold bucket
      rw [lookupAddr_insAddr]
      by_cases ha : (toLowerStr l.addressHex) = a
      · rw [if_pos ha, lookupBlock_insBlock]
        by_cases hbn : l.blockNumber = bn
        · rw [if_pos hbn]
          simp [ha, hbn]
        · rw [if_neg hbn]
          simp [ha, hbn]
      · rw [if_neg ha]
        simp [ha]
    rw [hb, List.filter_cons]
    by_cases hcond : (toLowerStr l.addressHex) = a ∧ l.blockNumber = bn
    · have hbeq : ((toLowerStr l.addressHex) == a && l.blockNumber == bn)
          = true := by
        simp [hcond.1, hcond.2]
      rw [if_pos hcond]
      simp [hbeq, List.append_assoc]
    · have hbeq : ((toLowerStr l.addressHex) == a && l.blockNumber == bn)
          = false := by
        by_cases h1 : (toLowerStr l.addressHex) = a
        · have h2 : ¬ l.blockNumber = bn := fun h => hcond ⟨h1, h⟩
          simp [h1, h2]
        · simp [h1]
      rw [if_neg hcond]
      simp [hbeq]

/-- C8.  Log extractor correctness: with the height known, one iteration of
the log mode issues exactly one range-filtered log query and spawns no
per-block fetch; and for any returned event list, the stored sequence for
each `(lowercase address, block)` bucket is exactly the matching events in
arrival order, each contributing one record with the lowercase transaction
hash and the lowercase hex-encoded log data. -/
theorem C8_log_extractor (env : Env) (idx toB batch : Nat) (rolling : Bool)
    (st : LoopSt) (cur : Nat) (hh : env.height idx = .ok cur) :
    ((iterLog env idx toB batch rolling st).1.countP isFilterEv = 1) ∧
    ((iterLog env idx toB batch rolling st).1.countP isFetchEv = 0) ∧
    (∀ (logs : List LogEv) (a : String) (bn : Nat),
      bucket (extractLogs logs) a bn =
        (logs.filter fun l =>
          (toLowerStr l.addressHex) == a && l.blockNumber == bn).map
          (fun l => ({ hash := (toLowerStr l.txHashHex)
                       data := toLowerStr (hexEncodeToString l.data) } :
            EthData))) := by
  refine ⟨?_, ?_, ?_⟩
  · rw [iterLog_eq env idx toB batch rolling st cur hh]
    generalize thisFromOf st = A
    generalize computeToBlock A batch cur toB rolling = T
    rcases hf : env.filterLogs A T with e | logs
    · rfl
    rcases hs : env.saveLogRes idx with _ | e
    · rcases hset : env.setLastRes idx with _ | e <;> rfl
    · rfl
  · rw [iterLog_eq env idx toB batch rolling st cur hh]
    generalize thisFromOf st = A
    generalize computeToBlock A batch cur toB rolling = T
    rcases hf : env.filterLogs A T with e | logs
    · rfl
    rcases hs : env.saveLogRes idx with _ | e
    · rcases hset : env.setLastRes idx with _ | e <;> rfl
    · rfl
  · intro logs a bn
    have h := bucket_extract_aux logs [] a bn
    simpa [bucket, lookupAddr, lookupBlock, extractLogs, logRecordOf] using h

/-- C8 witness: height known, and a concrete three-event window whose
`(0xaa, 3)` bucket keeps both matching records in arrival order. -/
theorem C8_log_extractor_witness :
    (iterLog envB 0 20 5 true ⟨10, false⟩).1.countP isFilterEv = 1 ∧
    bucket (extractLogs
      [⟨"0xAA", "0xH1", 3, [171]⟩, ⟨"0xBB", "0xH2", 3, [1]⟩,
        ⟨"0xAA", "0xH3", 3, [255]⟩]) "0xaa" 3 =
      [⟨"0xh1", "ab"⟩, ⟨"0xh3", "ff"⟩] := by
  have h := C8_log_extractor envB 0 20 5 true ⟨10, false⟩ 10 rfl
  refine ⟨h.1, ?_⟩
  rw [h.2.2 [⟨"0xAA", "0xH1", 3, [171]⟩, ⟨"0xBB", "0xH2", 3, [1]⟩,
    ⟨"0xAA", "0xH3", 3, [255]⟩] "0xaa" 3]
  decide

/-- An environment whose per-block fetches always fail. -/
def envFetchFail : Env :=
  { height := fun _ => .ok 10
    blockByNumber := fun _ => .error "rpc"
    filterLogs := fun _ _ => .ok []
    saveTxsRes := fun _ => none
    saveLogRes := fun _ => none
    setLastRes := fun _ => none }

/-- C2 (code bug).  When any per-block fetch in a window fails, no records
are persisted and the checkpoint is not advanced — but the first error is
NOT returned to the caller: the failing goroutine blocks on its unbuffered
`errChan` send before `wg.Done()`, so under every interleaving main never
passes `wg.Wait()` and never receives the error (first conjunct, over the
fan-out model); accordingly the iteration trace of a failed window holds no
record write and no checkpoint write (second conjunct). -/
theorem C2_fetch_error_deadlock (tasks : List Bool)
    (htrue : true ∈ tasks) (env : Env) (idx toB batch : Nat)
    (rolling : Bool) (st : LoopSt) :
    (∀ s, FanReach tasks s →
      s.mainInSelect = false ∧ s.errReturned = false) ∧
    ((iterTx env idx toB batch rolling st).2 = .hang →
      (∀ d r, Ev.saveTxs d r ∉ (iterTx env idx toB batch rolling st).1) ∧
      (∀ n r, Ev.setLast n r ∉ (iterTx env idx toB batch rolling st).1)) := by
  refine ⟨fan_deadlock htrue, ?_⟩
  rcases hh : env.height idx with e | cur
  · have heq : iterTx env idx toB batch rolling st =
        ([], .fail ("failed to get current block number: " ++ e)) := by
      unfold iterTx
      rw [hh]
    rw [heq]
    intro hhang
    cases hhang
  · rw [iterTx_eq env idx toB batch rolling st cur hh]
    generalize thisFromOf st = A
    generalize computeToBlock A batch cur toB rolling = T
    by_cases hnb : int64ofUint64 (add64 (sub64 T A) 1) < 0
    · rw [if_pos hnb]
      intro hhang
      cases hhang
    · rw [if_neg hnb]
      rcases hcb : collectBlocks env (blockRange A T) with e | bs
      · intro _
        constructor <;>
          · intro x r hmem
            simp [List.mem_map] at hmem
      · rcases hs : env.saveTxsRes idx with _ | e
        · rcases hset : env.setLastRes idx with _ | e <;>
            · intro hhang
              simp at hhang
        · intro hhang
          simp at hhang

/-- C2 witness: one erring task, a window whose block fetches fail. -/
theorem C2_fetch_error_deadlock_witness :
    (fanInit [true]).mainInSelect = false ∧
    Ev.saveTxs [] none ∉ (iterTx envFetchFail 0 20 2 true ⟨5, false⟩).1 ∧
    Ev.setLast 8 none ∉ (iterTx envFetchFail 0 20 2 true ⟨5, false⟩).1 := by
  have h := C2_fetch_error_deadlock [true] (by decide) envFetchFail
    0 20 2 true ⟨5, false⟩
  have hh := h.2 (by decide)
  exact ⟨(h.1 (fanInit [true]) Relation.ReflTransGen.refl).1,
    hh.1 [] none, hh.2 8 none⟩

theorem crawlLoop_next (iter : Env → Nat → Nat → Nat → Bool → LoopSt →
    List Ev × Outcome) (env : Env) (toB batch : Nat) (rolling : Bool)
    (f idx : Nat) (st : LoopSt) (evs : List Ev) (st' : LoopSt)
    (hcond : rolling = true ∨ st.lrb < toB)
    (hiter : iter env idx toB batch rolling st = (evs, Outcome.next st')) :
    crawlLoop iter env toB batch rolling (f + 1) idx st =
      (evs ++ (crawlLoop iter env toB batch rolling f (idx + 1) st').1,
        (crawlLoop iter env toB batch rolling f (idx + 1) st').2) := by
  rw [crawlLoop, if_pos hcond, hiter]

theorem crawlLoop_fail (iter : Env → Nat → Nat → Nat → Bool → LoopSt →
    List Ev × Outcome) (env : Env) (toB batch : Nat) (rolling : Bool)
    (f idx : Nat) (st : LoopSt) (evs : List Ev) (e : String)
    (hcond : rolling = true ∨ st.lrb < toB)
    (hiter : iter env idx toB batch rolling st = (evs, Outcome.fail e)) :
    crawlLoop iter env toB batch rolling (f + 1) idx st =
      (evs, LoopRes.failed e) := by
  rw [crawlLoop, if_pos hcond, hiter]

theorem crawlLoop_hang (iter : Env → Nat → Nat → Nat → Bool → LoopSt →
    List Ev × Outcome) (env : Env) (toB batch : Nat) (rolling : Bool)
    (f idx : Nat) (st : LoopSt) (evs : List Ev)
    (hcond : rolling = true ∨ st.lrb < toB)
    (hiter : iter env idx toB batch rolling st = (evs, Outcome.hang)) :
    crawlLoop iter env toB batch rolling (f + 1) idx st =
      (evs, LoopRes.hung) := by
  rw [crawlLoop, if_pos hcond, hiter]

theorem crawlLoop_panicked (iter : Env → Nat → Nat → Nat → Bool → LoopSt →
    List Ev × Outcome) (env : Env) (toB batch : Nat) (rolling : Bool)
    (f idx : Nat) (st : LoopSt) (evs : List Ev)
    (hcond : rolling = true ∨ st.lrb < toB)
    (hiter : iter env idx toB batch rolling st = (evs, Outcome.panicked)) :
    crawlLoop iter env toB batch rolling (f + 1) idx st =
      (evs, LoopRes.panicked) := by
  rw [crawlLoop, if_pos hcond, hiter]

/-- First-run chain invariant, transaction mode: with `firstRun` set, every
window's lower bound equals the loop state's `lastRecordedBlock`, which is
the previous window's upper bound; and each well-formed window's two
boundary blocks are among the spawned fetches. -/
theorem crawlLoopTx_chain (env : Env) (toB batch : Nat) (rolling : Bool) :
    ∀ fuel idx st, st.firstRun = true →
      chainFrom st.lrb
        (windowsOf (crawlLoop iterTx env toB batch rolling fuel idx st).1) ∧
      (∀ w, w ∈ windowsOf
          (crawlLoop iterTx env toB batch rolling fuel idx st).1 →
        w.1 ≤ w.2 → w.2 < w64 → w.2 + 1 - w.1 < 2 ^ 63 →
        Ev.fetchBlock w.1 ∈
          (crawlLoop iterTx env toB batch rolling fuel idx st).1 ∧
        Ev.fetchBlock w.2 ∈
          (crawlLoop iterTx env toB batch rolling fuel idx st).1) := by
  intro fuel
  induction fuel with
  | zero =>
    intro idx st _
    rw [crawlLoop]
    split_ifs <;> exact ⟨trivial, by simp [windowsOf]⟩
  | succ f ih =>
    intro idx st hfr
    by_cases hcond : rolling = true ∨ st.lrb < toB
    · rcases iterTx_shape env idx toB batch rolling st with ⟨e, heq⟩ |
        ⟨cur, evs, out, hh, heq, hwin, hmem, hpres, hnext⟩
      · rw [crawlLoop_fail iterTx env toB batch rolling f idx st _ _
          hcond heq]
        exact ⟨trivial, by simp [windowsOf]⟩
      · have hA : thisFromOf st = st.lrb := by simp [thisFromOf, hfr]
        cases out with
        | next st' =>
          have hst' := hnext st' rfl
          subst hst'
          obtain ⟨ihc, ihm⟩ := ih (idx + 1)
            ⟨computeToBlock (thisFromOf st) batch cur toB rolling,
              st.firstRun⟩ hfr
          rw [crawlLoop_next iterTx env toB batch rolling f idx st _ _
            hcond heq]
          constructor
          · rw [List.cons_append, windowsOf_cons_window, windowsOf_append,
              hwin, List.nil_append]
            exact ⟨hA, ihc⟩
          · intro w hw h1 h2 h3
            rw [List.cons_append, windowsOf_cons_window, windowsOf_append,
              hwin, List.nil_append] at hw
            rcases List.mem_cons.mp hw with hweq | hwrest
            · subst hweq
              have hf1 := hpres _ (le_refl _) h1 h2 h3
              have hf2 := hpres _ h1 (le_refl _) h2 h3
              constructor
              · exact List.mem_cons_of_mem _ (List.mem_append_left _ hf1)
              · exact List.mem_cons_of_mem _ (List.mem_append_left _ hf2)
            · have := ihm w hwrest h1 h2 h3
              constructor
              · exact List.mem_cons_of_mem _ (List.mem_append_right _ this.1)
              · exact List.mem_cons_of_mem _ (List.mem_append_right _ this.2)
        | fail e =>
          rw [crawlLoop_fail iterTx env toB batch rolling f idx st _ _
            hcond heq]
          constructor
          · rw [windowsOf_cons_window, hwin]
            exact ⟨hA, trivial⟩
          · intro w hw h1 h2 h3
            rw [windowsOf_cons_window, hwin] at hw
            rcases List.mem_cons.mp hw with hweq | hwrest
            · subst hweq
              exact ⟨List.mem_cons_of_mem _ (hpres _ (le_refl _) h1 h2 h3),
                List.mem_cons_of_mem _ (hpres _ h1 (le_refl _) h2 h3)⟩
            · simp at hwrest
        | hang =>
          rw [crawlLoop_hang iterTx env toB batch rolling f idx st _
            hcond heq]
          constructor
          · rw [windowsOf_cons_window, hwin]
            exact ⟨hA, trivial⟩
          · intro w hw h1 h2 h3
            rw [windowsOf_cons_window, hwin] at hw
            rcases List.mem_cons.mp hw with hweq | hwrest
            · subst hweq
              exact ⟨List.mem_cons_of_mem _ (hpres _ (le_refl _) h1 h2 h3),
                List.mem_cons_of_mem _ (hpres _ h1 (le_refl _) h2 h3)⟩
            · simp at hwrest
        | panicked =>
          rw [crawlLoop_panicked iterTx env toB batch rolling f idx st _
            hcond heq]
          constructor
          · rw [windowsOf_cons_window, hwin]
            exact ⟨hA, trivial⟩
          · intro w hw h1 h2 h3
            rw [windowsOf_cons_window, hwin] at hw
            rcases List.mem_cons.mp hw with hweq | hwrest
            · subst hweq
              exact ⟨List.mem_cons_of_mem _ (hpres _ (le_refl _) h1 h2 h3),
                List.mem_cons_of_mem _ (hpres _ h1 (le_refl _) h2 h3)⟩
            · simp at hwrest
    · rw [crawlLoop, if_neg hcond]
      exact ⟨trivial, by simp [windowsOf]⟩

theorem windowsOf_cons_filterLogs (a b : Nat) (l : List Ev) :
    windowsOf (Ev.filterLogs a b :: l) = windowsOf l := by
  simp [windowsOf, List.filterMap_cons]

/-- First-run chain invariant, log mode. -/
theorem crawlLoopLog_chain (env : Env) (toB batch : Nat) (rolling : Bool) :
    ∀ fuel idx st, st.firstRun = true →
      chainFrom st.lrb
        (windowsOf (crawlLoop iterLog env toB batch rolling fuel idx st).1) := by
  intro fuel
  induction fuel with
  | zero =>
    intro idx st _
    rw [crawlLoop]
    split_ifs <;> exact trivial
  | succ f ih =>
    intro idx st hfr
    by_cases hcond : rolling = true ∨ st.lrb < toB
    · rcases iterLog_shape env idx toB batch rolling st with ⟨e, heq⟩ |
        ⟨cur, evs, out, hh, heq, hwin, hnofetch, hnofilter, hnext⟩
      · rw [crawlLoop_fail iterLog env toB batch rolling f idx st _ _
          hcond heq]
        exact trivial
      · have hA : thisFromOf st = st.lrb := by simp [thisFromOf, hfr]
        cases out with
        | next st' =>
          have hst' := hnext st' rfl
          subst hst'
          have ihc := ih (idx + 1)
            ⟨computeToBlock (thisFromOf st) batch cur toB rolling,
              st.firstRun⟩ hfr
          rw [crawlLoop_next iterLog env toB batch rolling f idx st _ _
            hcond heq, List.cons_append, List.cons_append,
            windowsOf_cons_window, windowsOf_cons_filterLogs,
            windowsOf_append, hwin, List.nil_append]
          exact ⟨hA, ihc⟩
        | fail e =>
          rw [crawlLoop_fail iterLog env toB batch rolling f idx st _ _
            hcond heq, windowsOf_cons_window, windowsOf_cons_filterLogs,
            hwin]
          exact ⟨hA, trivial⟩
        | hang =>
          rw [crawlLoop_hang iterLog env toB batch rolling f idx st _
            hcond heq, windowsOf_cons_window, windowsOf_cons_filterLogs,
            hwin]
          exact ⟨hA, trivial⟩
        | panicked =>
          rw [crawlLoop_panicked iterLog env toB batch rolling f idx st _
            hcond heq, windowsOf_cons_window, windowsOf_cons_filterLogs,
            hwin]
          exact ⟨hA, trivial⟩
    · rw [crawlLoop, if_neg hcond]
      exact trivial

/-- Like `envC`: heights pinned to 200 and everything healthy. -/
def envC : Env :=
  { height := fun _ => .ok 200
    blockByNumber := fun n => .ok ⟨n, []⟩
    filterLogs := fun _ _ => .ok []
    saveTxsRes := fun _ => none
    saveLogRes := fun _ => none
    setLastRes := fun _ => none }

/-- C9.  First-run window overlap: with no prior checkpoint the `firstRun`
flag stays set for the whole run, so in both modes every window's lower
bound equals the previous window's upper bound (`lastRecordedBlock`, not
`lastRecordedBlock + 1`), and in transaction mode each well-formed
window's boundary blocks are both among the spawned fetches — the shared
boundary block is fetched by two consecutive windows. -/
theorem C9_first_run_window_overlap (env : Env) (fromB toB batch : Nat)
    (rolling : Bool) (fuel : Nat) :
    chainFrom fromB (windowsOf (getAndSaveTxs env RedisReply.nil
      fromB toB batch rolling fuel).1) ∧
    (∀ w, w ∈ windowsOf (getAndSaveTxs env RedisReply.nil
        fromB toB batch rolling fuel).1 →
      w.1 ≤ w.2 → w.2 < w64 → w.2 + 1 - w.1 < 2 ^ 63 →
      Ev.fetchBlock w.1 ∈ (getAndSaveTxs env RedisReply.nil
        fromB toB batch rolling fuel).1 ∧
      Ev.fetchBlock w.2 ∈ (getAndSaveTxs env RedisReply.nil
        fromB toB batch rolling fuel).1) ∧
    chainFrom fromB (windowsOf (getAndSaveLogsTxs env RedisReply.nil
      fromB toB batch rolling fuel).1) := by
  have hTx : getAndSaveTxs env RedisReply.nil fromB toB batch rolling fuel
      = crawlLoop iterTx env toB batch rolling fuel 0 ⟨fromB, true⟩ := by
    simp [getAndSaveTxs, GetLastRecordedBlock, resumeSt]
  have hLog : getAndSaveLogsTxs env RedisReply.nil fromB toB batch rolling
      fuel = crawlLoop iterLog env toB batch rolling fuel 0 ⟨fromB, true⟩ := by
    simp [getAndSaveLogsTxs, GetLastRecordedBlock, resumeSt]
  rw [hTx, hLog]
  obtain ⟨hchain, hmem⟩ :=
    crawlLoopTx_chain env toB batch rolling fuel 0 ⟨fromB, true⟩ rfl
  exact ⟨hchain, hmem,
    crawlLoopLog_chain env toB batch rolling fuel 0 ⟨fromB, true⟩ rfl⟩

/-- C9 witness on the concrete run with heights 200: the windows are
`[100,125]` and `[125,150]`, and the shared boundary block 125 is
fetched. -/
theorem C9_first_run_window_overlap_witness :
    chainFrom 100 (windowsOf (getAndSaveTxs envC RedisReply.nil
      100 150 25 false 5).1) ∧
    Ev.fetchBlock 125 ∈ (getAndSaveTxs envC RedisReply.nil
      100 150 25 false 5).1 := by
  have h := C9_first_run_window_overlap envC 100 150 25 false 5
  refine ⟨h.1, ?_⟩
  have := h.2.1 (100, 125) (by decide) (by norm_num) (by norm_num [w64])
    (by norm_num)
  exact this.2

/-- C5 counterexample: on a healthy chain at height 200 with `rolling =
false`, `fromBlock = 100`, `toBlock = 150`, `batchSize = 25` and no prior
checkpoint, the two windows are `[100,125]` and `[125,150]` — not
`[100,125]` and `[126,150]` as claimed, because the `firstRun` flag is
never cleared and the second lower bound is not incremented. -/
theorem C5_counterexample :
    windowsOf (getAndSaveTxs envC RedisReply.nil 100 150 25 false 5).1 =
      [(100, 125), (125, 150)] ∧
    windowsOf (getAndSaveTxs envC RedisReply.nil 100 150 25 false 5).1 ≠
      [(100, 125), (126, 150)] := by
  constructor
  · decide
  · decide

/-- C5 (amended).  Bounded-mode termination: with `rolling = false`,
`fromBlock = 100`, `toBlock = 150`, `batchSize = 25`, no prior checkpoint,
every reported height at least 150 and all fetches and store calls
succeeding, the loop performs exactly two windows — `[100, 125]` and
`[125, 150]` (the second lower bound is 125, not 126, because `firstRun`
persists) — then halts normally with the checkpoint written as 150. -/
theorem C5_bounded_termination (env : Env)
    (hH : ∀ k, ∃ cur, env.height k = .ok cur ∧ 150 ≤ cur)
    (hB : ∀ n, ∃ b, env.blockByNumber n = .ok b)
    (hS : ∀ k, env.saveTxsRes k = none)
    (hSet : ∀ k, env.setLastRes k = none) (fuel : Nat) :
    windowsOf (getAndSaveTxs env RedisReply.nil 100 150 25 false
      (fuel + 2)).1 = [(100, 125), (125, 150)] ∧
    (getAndSaveTxs env RedisReply.nil 100 150 25 false (fuel + 2)).2 =
      LoopRes.finished ⟨150, true⟩ ∧
    Ev.setLast 150 none ∈
      (getAndSaveTxs env RedisReply.nil 100 150 25 false (fuel + 2)).1 := by
  obtain ⟨cur0, hh0, hc0⟩ := hH 0
  obtain ⟨cur1, hh1, hc1⟩ := hH 1
  obtain ⟨bs0, hcb0⟩ :=
    collectBlocks_ok env (blockRange 100 125) (fun n _ => hB n)
  obtain ⟨bs1, hcb1⟩ :=
    collectBlocks_ok env (blockRange 125 150) (fun n _ => hB n)
  have hT0 : computeToBlock 100 25 cur0 150 false = 125 := by
    unfold computeToBlock
    rw [add64_eq_of_lt _ _ (by norm_num [w64])]
    have hnl : ¬ cur0 < 100 + 25 := by omega
    simp only [hnl, if_false]
    norm_num
  have hT1 : computeToBlock 125 25 cur1 150 false = 150 := by
    unfold computeToBlock
    rw [add64_eq_of_lt _ _ (by norm_num [w64])]
    have hnl : ¬ cur1 < 125 + 25 := by omega
    simp only [hnl, if_false]
    norm_num
  have hit0 : iterTx env 0 150 25 false ⟨100, true⟩ =
      (Ev.window 100 125 :: (blockRange 100 125).map Ev.fetchBlock ++
        [Ev.saveTxs (bs0.map extractBlockTxs) none, Ev.setLast 125 none],
        Outcome.next ⟨125, true⟩) := by
    rw [iterTx_eq env 0 150 25 false ⟨100, true⟩ cur0 hh0]
    rw [show thisFromOf (⟨100, true⟩ : LoopSt) = 100 from rfl, hT0]
    rw [if_neg (by decide : ¬ int64ofUint64 (add64 (sub64 125 100) 1) < 0)]
    rw [hcb0, hS 0, hSet 0]
  have hit1 : iterTx env 1 150 25 false ⟨125, true⟩ =
      (Ev.window 125 150 :: (blockRange 125 150).map Ev.fetchBlock ++
        [Ev.saveTxs (bs1.map extractBlockTxs) none, Ev.setLast 150 none],
        Outcome.next ⟨150, true⟩) := by
    rw [iterTx_eq env 1 150 25 false ⟨125, true⟩ cur1 hh1]
    rw [show thisFromOf (⟨125, true⟩ : LoopSt) = 125 from rfl, hT1]
    rw [if_neg (by decide : ¬ int64ofUint64 (add64 (sub64 150 125) 1) < 0)]
    rw [hcb1, hS 1, hSet 1]
  have hstop : crawlLoop iterTx env 150 25 false fuel 2 ⟨150, true⟩ =
      ([], LoopRes.finished ⟨150, true⟩) := by
    cases fuel <;>
      · rw [crawlLoop, if_neg (by norm_num)]
  have hloop1 : crawlLoop iterTx env 150 25 false (fuel + 1) 1
      ⟨125, true⟩ =
      (Ev.window 125 150 :: (blockRange 125 150).map Ev.fetchBlock ++
        [Ev.saveTxs (bs1.map extractBlockTxs) none, Ev.setLast 150 none],
        LoopRes.finished ⟨150, true⟩) := by
    rw [crawlLoop_next iterTx env 150 25 false fuel 1 ⟨125, true⟩ _ _
      (Or.inr (by norm_num)) hit1]
    rw [hstop]
    simp
  have hmain : getAndSaveTxs env RedisReply.nil 100 150 25 false
      (fuel + 2) =
      crawlLoop iterTx env 150 25 false (fuel + 2) 0 ⟨100, true⟩ := by
    simp [getAndSaveTxs, GetLastRecordedBlock, resumeSt]
  have hloop : crawlLoop iterTx env 150 25 false (fuel + 2) 0
      ⟨100, true⟩ =
      ((Ev.window 100 125 :: (blockRange 100 125).map Ev.fetchBlock ++
        [Ev.saveTxs (bs0.map extractBlockTxs) none, Ev.setLast 125 none]) ++
        (Ev.window 125 150 :: (blockRange 125 150).map Ev.fetchBlock ++
        [Ev.saveTxs (bs1.map extractBlockTxs) none, Ev.setLast 150 none]),
        LoopRes.finished ⟨150, true⟩) := by
    rw [show fuel + 2 = (fuel + 1) + 1 from rfl]
    rw [crawlLoop_next iterTx env 150 25 false (fuel + 1) 0 ⟨100, true⟩ _ _
      (Or.inr (by norm_num)) hit0]
    rw [hloop1]
  rw [hmain, hloop]
  refine ⟨?_, rfl, ?_⟩
  · rw [windowsOf_append, windowsOf_append, windowsOf_append,
      windowsOf_cons_window, windowsOf_cons_window, windowsOf_map_fetch,
      windowsOf_map_fetch]
    rfl
  · simp

/-- C5 witness on the concrete healthy chain at height 200. -/
theorem C5_bounded_termination_witness :
    windowsOf (getAndSaveTxs envC RedisReply.nil 100 150 25 false 5).1 =
      [(100, 125), (125, 150)] ∧
    (getAndSaveTxs envC RedisReply.nil 100 150 25 false 5).2 =
      LoopRes.finished ⟨150, true⟩ := by
  have h := C5_bounded_termination envC
    (fun k => ⟨200, rfl, by norm_num⟩)
    (fun n => ⟨⟨n, []⟩, rfl⟩) (fun _ => rfl) (fun _ => rfl) 3
  exact ⟨h.1, h.2.1⟩
